import Mathlib

/-!
Isetta engine: memory manager facade, networking disconnect, event dispatch.

A shallow embedding of `Core/Memory/MemoryManager.cpp`, of
`NetworkingModule::Disconnect` and of `Events.cpp`, with the properties of the
specification stated and proved over it.

The four allocator classes (`StackAllocator`, `DoubleBufferedAllocator`,
`FreeListAllocator`, `MemoryArena`) and `ObjectHandle` live in files of the
engine other than the three embedded here; they are modelled from sections 3
and 4 of the specification.  Addresses, sizes and markers are natural numbers,
a byte is a natural number, and a backing region is a map from byte offsets to
bytes.
-/

namespace Isetta

/-- Error kinds of the memory core: the taxonomy of section 7 of the specification and the
configuration error of section 6.  `UninitializedAccess` is what
`MemoryManager::GetInstance` throws. -/
inductive MemError where
  | OutOfMemory
  | MisalignedOrInvalidRelease
  | StaleHandleError
  | UninitializedAccess
  | ConfigurationError
  deriving DecidableEq, Repr

/-! ## Byte regions -/

/-- The `n` bytes of `mem` starting at offset `off`. -/
def readBytes (mem : Nat → Nat) (off n : Nat) : List Nat :=
  (List.range n).map (fun k => mem (off + k))

/-- The region `mem` with `bytes` stored from offset `off` on. -/
def writeBytes (mem : Nat → Nat) (off : Nat) (bytes : List Nat) : Nat → Nat :=
  fun a => if off ≤ a ∧ a < off + bytes.length then bytes.getD (a - off) 0 else mem a

/-- The next address at or after `address` that is a multiple of `alignment`
(an alignment of zero asks for no adjustment). -/
def alignUp (address alignment : Nat) : Nat :=
  address + (alignment - address % alignment) % alignment

/-! ## StackAllocator -/

/-- Modelled from the spec: the `StackAllocator` class (section 4.1) is not among the
sources.  It owns a backing region (`base`, `capacity`), a cursor `top` kept as an
offset from `base`, and the bytes of the region. -/
structure StackAllocator where
  base : Nat
  capacity : Nat
  top : Nat
  mem : Nat → Nat

namespace StackAllocator

/-- Modelled from the spec: the default constructor of `StackAllocator`, which is not
among the sources: an allocator that owns no backing region. -/
def unconstructed : StackAllocator :=
  { base := 0, capacity := 0, top := 0, mem := fun _ => 0 }

/-- Modelled from the spec: `StackAllocator(size)`, "created at engine start-up with a
configured byte capacity"; `base` is the address the system hands out for the region. -/
def create (base size : Nat) : StackAllocator :=
  { base := base, capacity := size, top := 0, mem := fun _ => 0 }

/-- Modelled from the spec: `Alloc(size, alignment)` "bumps the cursor to the next
address satisfying `alignment`, fails with `OutOfMemory` when the bump would exceed
capacity". -/
def Alloc (s : StackAllocator) (size alignment : Nat) : Except MemError Nat × StackAllocator :=
  let aligned := alignUp (s.base + s.top) alignment
  let newTop := aligned - s.base + size
  if newTop ≤ s.capacity then (.ok aligned, { s with top := newTop })
  else (.error .OutOfMemory, s)

/-- Modelled from the spec: `GetMarker()` "captures the current cursor". -/
def GetMarker (s : StackAllocator) : Nat := s.top

/-- Modelled from the spec: `FreeToMarker(marker)` "resets the cursor to the marker's
value". -/
def FreeToMarker (s : StackAllocator) (marker : Nat) : StackAllocator :=
  { s with top := marker }

/-- Modelled from the spec: `Clear()` "resets the cursor to the start of the region". -/
def Clear (s : StackAllocator) : StackAllocator :=
  { s with top := 0 }

/-- Modelled from the spec: `Erase()`, by which `ShutDown()` "releases all
allocator-owned backing regions". -/
def Erase (_ : StackAllocator) : StackAllocator := unconstructed

end StackAllocator

/-! ## DoubleBufferedAllocator -/

/-- Modelled from the spec: the `DoubleBufferedAllocator` class (section 4.2) is not
among the sources.  It "wraps two StackAllocators, current and previous". -/
structure DoubleBufferedAllocator where
  current : StackAllocator
  previous : StackAllocator

namespace DoubleBufferedAllocator

/-- Modelled from the spec: the default constructor, two stacks without a region. -/
def unconstructed : DoubleBufferedAllocator :=
  { current := StackAllocator.unconstructed, previous := StackAllocator.unconstructed }

/-- Modelled from the spec: `DoubleBufferedAllocator(size)`, two stacks of the
configured capacity, at the addresses the system hands out. -/
def create (baseA baseB size : Nat) : DoubleBufferedAllocator :=
  { current := StackAllocator.create baseA size, previous := StackAllocator.create baseB size }

/-- Modelled from the spec: "`Alloc` always targets current". -/
def Alloc (d : DoubleBufferedAllocator) (size alignment : Nat) :
    Except MemError Nat × DoubleBufferedAllocator :=
  let r := d.current.Alloc size alignment
  (r.1, { d with current := r.2 })

/-- Modelled from the spec: `SwapBuffer()` "exchanges the roles of current/previous
without touching memory contents". -/
def SwapBuffer (d : DoubleBufferedAllocator) : DoubleBufferedAllocator :=
  { current := d.previous, previous := d.current }

/-- Modelled from the spec: `ClearCurrentBuffer()` "resets only the
newly-demoted-to-current buffer's cursor". -/
def ClearCurrentBuffer (d : DoubleBufferedAllocator) : DoubleBufferedAllocator :=
  { d with current := d.current.Clear }

/-- Modelled from the spec: `Erase()`, releasing both backing regions. -/
def Erase (d : DoubleBufferedAllocator) : DoubleBufferedAllocator :=
  { current := d.current.Erase, previous := d.previous.Erase }

end DoubleBufferedAllocator

/-! ## FreeListAllocator -/

/-- A free byte range `{address, size}` of the free-list allocator (section 3). -/
structure FreeBlock where
  address : Nat
  size : Nat
  deriving DecidableEq, Repr

/-- The bookkeeping header of a live free-list allocation: the payload handed to the
client and the whole byte range (alignment padding included) taken from the free list. -/
structure AllocHeader where
  address : Nat
  size : Nat
  blockStart : Nat
  blockSize : Nat
  deriving DecidableEq, Repr

/-- Modelled from the spec: the `FreeListAllocator` class (section 4.3) is not among the
sources.  It keeps an address-ordered list of free byte ranges over a fixed region, and
the headers of the live allocations. -/
structure FreeListAllocator where
  base : Nat
  capacity : Nat
  freeList : List FreeBlock
  headers : List AllocHeader
  mem : Nat → Nat

namespace FreeListAllocator

/-- Modelled from the spec: the default constructor, an allocator without a region. -/
def unconstructed : FreeListAllocator :=
  { base := 0, capacity := 0, freeList := [], headers := [], mem := fun _ => 0 }

/-- Modelled from the spec: `FreeListAllocator(size)`, one free range that spans the
whole region. -/
def create (base size : Nat) : FreeListAllocator :=
  { base := base, capacity := size, freeList := [⟨base, size⟩], headers := [],
    mem := fun _ => 0 }

/-- Modelled from the spec: the "first-fit scan of free ranges honoring alignment
padding", which "splits an oversized free block, returns the remainder to the free
list". -/
def firstFit (size alignment : Nat) : List FreeBlock → Option (AllocHeader × List FreeBlock)
  | [] => none
  | b :: rest =>
    let aligned := alignUp b.address alignment
    let used := (aligned - b.address) + size
    if used ≤ b.size then
      some (⟨aligned, size, b.address, used⟩,
        if used < b.size then ⟨b.address + used, b.size - used⟩ :: rest else rest)
    else
      (firstFit size alignment rest).map (fun r => (r.1, b :: r.2))

/-- Modelled from the spec: returning a range to the address-ordered free list, where it
"coalesces with an immediately adjacent free range on either side". -/
def release (r : FreeBlock) : List FreeBlock → List FreeBlock
  | [] => [r]
  | b :: rest =>
    if r.address + r.size = b.address then ⟨r.address, r.size + b.size⟩ :: rest
    else if r.address < b.address then r :: b :: rest
    else if b.address + b.size = r.address then release ⟨b.address, b.size + r.size⟩ rest
    else b :: release r rest

/-- Modelled from the spec: `Alloc(size, alignment)`, failing with `OutOfMemory` when no
free range is large enough. -/
def Alloc (f : FreeListAllocator) (size alignment : Nat) :
    Except MemError Nat × FreeListAllocator :=
  match firstFit size alignment f.freeList with
  | none => (.error .OutOfMemory, f)
  | some (hdr, rest) => (.ok hdr.address, { f with freeList := rest, headers := hdr :: f.headers })

/-- Modelled from the spec: `Free(ptr)` "locates the allocation's bookkeeping header,
returns the range to the free list"; an address the allocator did not issue is a
`MisalignedOrInvalidRelease`. -/
def Free (f : FreeListAllocator) (memPtr : Nat) : Except MemError Unit × FreeListAllocator :=
  match f.headers.find? (fun h => h.address == memPtr) with
  | none => (.error .MisalignedOrInvalidRelease, f)
  | some hdr =>
    (.ok (), { f with
      freeList := release ⟨hdr.blockStart, hdr.blockSize⟩ f.freeList,
      headers := f.headers.filter (fun h => h.address != memPtr) })

/-- Modelled from the spec: `Realloc(ptr, newSize, alignment)` "grows in place if the
immediately following block is free and large enough; otherwise allocates a new range,
copies the original payload, frees the old range"; a block that already has the room is
never moved. -/
def Realloc (f : FreeListAllocator) (memPtr size alignment : Nat) :
    Except MemError Nat × FreeListAllocator :=
  match f.headers.find? (fun h => h.address == memPtr) with
  | none => (.error .MisalignedOrInvalidRelease, f)
  | some hdr =>
    let blockEnd := hdr.blockStart + hdr.blockSize
    let room := blockEnd - hdr.address
    let others := f.headers.filter (fun h => h.address != memPtr)
    if size ≤ room then
      (.ok memPtr, { f with headers := { hdr with size := size } :: others })
    else
      let need := size - room
      match f.freeList.find? (fun b => b.address == blockEnd && decide (need ≤ b.size)) with
      | some nxt =>
        let kept := f.freeList.filter (fun b => b.address != blockEnd)
        let remainder : List FreeBlock :=
          if need < nxt.size then [⟨blockEnd + need, nxt.size - need⟩] else []
        (.ok memPtr, { f with
          freeList := remainder.foldr release kept,
          headers := { hdr with size := size, blockSize := hdr.blockSize + need } :: others })
      | none =>
        match f.Alloc size alignment with
        | (.error e, _) => (.error e, f)
        | (.ok fresh, g) =>
          let copied := { g with mem := writeBytes g.mem fresh (readBytes g.mem memPtr hdr.size) }
          (.ok fresh, (copied.Free memPtr).2)

/-- Modelled from the spec: `Erase()`, releasing the backing region. -/
def Erase (_ : FreeListAllocator) : FreeListAllocator := unconstructed

end FreeListAllocator

/-! ## MemoryArena and ObjectHandle -/

/-- An arena slot (section 3): the stable logical identifier of an object, its current
byte offset inside the backing region, and its size. -/
structure ArenaSlot where
  id : Nat
  offset : Nat
  size : Nat
  deriving DecidableEq, Repr

/-- Modelled from the spec: the `MemoryArena` class (section 4.4) is not among the
sources.  The slot map is kept in ascending offset order; the free ranges are the gaps
between consecutive slots and the tail of the region. -/
structure MemoryArena where
  capacity : Nat
  slots : List ArenaSlot
  nextId : Nat
  mem : Nat → Nat

/-- Modelled from the spec: `ObjectHandle<T>` (section 4.5), "a lightweight value
(logical identifier + arena back-reference)"; the arena referred to is the one the
handle is used with. -/
structure ObjectHandle where
  id : Nat
  deriving DecidableEq, Repr

/-- Little-endian bytes of the low `8 * n` bits of `v`. -/
def encodeLE : Nat → Nat → List Nat
  | 0, _ => []
  | n + 1, v => v % 256 :: encodeLE n (v / 256)

/-- The number whose little-endian bytes are `bytes`. -/
def decodeLE : List Nat → Nat
  | [] => 0
  | b :: rest => b + 256 * decodeLE rest

namespace MemoryArena

/-- Modelled from the spec: the default constructor, an arena without a region. -/
def unconstructed : MemoryArena :=
  { capacity := 0, slots := [], nextId := 0, mem := fun _ => 0 }

/-- Modelled from the spec: `MemoryArena(size)`, an empty arena of the configured
capacity. -/
def create (size : Nat) : MemoryArena :=
  { capacity := size, slots := [], nextId := 0, mem := fun _ => 0 }

/-- First free range, scanning from offset `cur`, that holds `size` bytes: the slot list
with the new slot registered there. -/
def place (capacity id size : Nat) : Nat → List ArenaSlot → Option (Nat × List ArenaSlot)
  | cur, [] => if cur + size ≤ capacity then some (cur, [⟨id, cur, size⟩]) else none
  | cur, s :: rest =>
    if cur + size ≤ s.offset then some (cur, ⟨id, cur, size⟩ :: s :: rest)
    else (place capacity id size (s.offset + s.size) rest).map (fun r => (r.1, s :: r.2))

/-- Modelled from the spec: `NewDynamic<T>(args...)` "constructs `T` in the arena's
backing region and registers a new slot", failing with `OutOfMemory` when the object does
not fit; `bytes` is the representation of the constructed object. -/
def NewDynamic (a : MemoryArena) (bytes : List Nat) : Except MemError ObjectHandle × MemoryArena :=
  match place a.capacity a.nextId bytes.length 0 a.slots with
  | none => (.error .OutOfMemory, a)
  | some (off, slots) =>
    (.ok ⟨a.nextId⟩,
      { a with slots := slots, nextId := a.nextId + 1, mem := writeBytes a.mem off bytes })

/-- The slot a handle currently resolves to, if its object is live. -/
def slotOf (a : MemoryArena) (h : ObjectHandle) : Option ArenaSlot :=
  a.slots.find? (fun s => s.id == h.id)

/-- Modelled from the spec: `DeleteDynamic(handle)` "destroys the object and removes its
slot, returning the byte range to a free-range tracking structure"; deleting a handle
whose slot is gone is a double free. -/
def DeleteDynamic (a : MemoryArena) (h : ObjectHandle) : Except MemError Unit × MemoryArena :=
  match a.slotOf h with
  | none => (.error .MisalignedOrInvalidRelease, a)
  | some _ => (.ok (), { a with slots := a.slots.filter (fun s => s.id != h.id) })

/-- Compaction toward the start of the region: each live object, in ascending offset
order, is copied down to the running cursor `cur` and its slot entry rewritten. -/
def compact : Nat → List ArenaSlot → (Nat → Nat) → List ArenaSlot × (Nat → Nat)
  | _, [], mem => ([], mem)
  | cur, s :: rest, mem =>
    let moved := writeBytes mem cur (readBytes mem s.offset s.size)
    let r := compact (cur + s.size) rest moved
    ({ s with offset := cur } :: r.1, r.2)

/-- Modelled from the spec: `Defragment()` "relocates live objects toward one end of the
region (compaction), rewriting each relocated object's slot entry"; it copies byte
contents and cannot fail. -/
def Defragment (a : MemoryArena) : MemoryArena :=
  let r := compact 0 a.slots a.mem
  { a with slots := r.1, mem := r.2 }

/-- Modelled from the spec: `Erase()`, releasing the backing region. -/
def Erase (_ : MemoryArena) : MemoryArena := unconstructed

/-- The bytes a live object currently holds, `none` when the identifier has no slot. -/
def content (a : MemoryArena) (id : Nat) : Option (List Nat) :=
  (a.slots.find? (fun s => s.id == id)).map (fun s => readBytes a.mem s.offset s.size)

/-- Slots lie in ascending offset order from `cur` on, without overlap, inside the
region. -/
def slotsOrdered (capacity : Nat) : Nat → List ArenaSlot → Prop
  | cur, [] => cur ≤ capacity
  | cur, s :: rest => cur ≤ s.offset ∧ slotsOrdered capacity (s.offset + s.size) rest

/-- The arena invariant: slots ordered and disjoint inside the region, identifiers
distinct and below the next identifier to hand out. -/
def WellFormed (a : MemoryArena) : Prop :=
  slotsOrdered a.capacity 0 a.slots ∧ (∀ s ∈ a.slots, s.id < a.nextId) ∧
    (a.slots.map (fun s => s.id)).Nodup

/-- Slots that fill the region from `cur` up to `stop` without a gap. -/
def packed : Nat → List ArenaSlot → Nat → Prop
  | cur, [], stop => cur = stop
  | cur, s :: rest, stop => s.offset = cur ∧ packed (s.offset + s.size) rest stop

end MemoryArena

namespace ObjectHandle

/-- Modelled from the spec: dereferencing an `ObjectHandle<U64>` for reading; it
"resolves current address via the arena's slot map and fails with `StaleHandleError` if
the slot has been removed". -/
def read (a : MemoryArena) (h : ObjectHandle) : Except MemError Nat :=
  match a.slotOf h with
  | none => .error .StaleHandleError
  | some s => .ok (decodeLE (readBytes a.mem s.offset 8))

/-- Modelled from the spec: the assignment `*handle = value` through an
`ObjectHandle<U64>`: the eight bytes of the value are stored at the resolved address. -/
def assign (a : MemoryArena) (h : ObjectHandle) (value : Nat) :
    Except MemError Unit × MemoryArena :=
  match a.slotOf h with
  | none => (.error .StaleHandleError, a)
  | some s => (.ok (), { a with mem := writeBytes a.mem s.offset (encodeLE 8 value) })

end ObjectHandle

/-! ## MemoryManager -/

/-- The byte capacities of `Config::Instance().memoryConfig` that `StartUp` reads. -/
structure MemoryConfig where
  lsrAndLevelAllocatorSize : Nat
  singleFrameAllocatorSize : Nat
  doubleBufferedAllocatorSize : Nat
  dynamicArenaSize : Nat
  freeListAllocatorSize : Nat
  deriving DecidableEq, Repr

/-- The addresses at which the system places the backing regions that the allocator
constructors request during `StartUp`. -/
structure BackingRegions where
  lsrAndLevel : Nat
  singleFrame : Nat
  doubleBufferedA : Nat
  doubleBufferedB : Nat
  freeList : Nat
  deriving DecidableEq, Repr

/-- The members of the `MemoryManager` object. -/
structure MemoryManager where
  singleFrameAllocator : StackAllocator
  doubleBufferedAllocator : DoubleBufferedAllocator
  lsrAndLevelAllocator : StackAllocator
  freeListAllocator : FreeListAllocator
  dynamicArena : MemoryArena
  lvlMemStartMarker : Nat

namespace MemoryManager

/-- The members of a `MemoryManager` object right after its constructor ran: "the two
allocators are still initialized here by automatically calling their default
constructors", and so are the others. -/
def defaultConstructed : MemoryManager :=
  { singleFrameAllocator := StackAllocator.unconstructed
    doubleBufferedAllocator := DoubleBufferedAllocator.unconstructed
    lsrAndLevelAllocator := StackAllocator.unconstructed
    freeListAllocator := FreeListAllocator.unconstructed
    dynamicArena := MemoryArena.unconstructed
    lvlMemStartMarker := 0 }

/-- The constructor `MemoryManager::MemoryManager()`, whose body is `instance = this`:
the value of the static `instance` pointer afterwards. -/
def new : Option MemoryManager := some defaultConstructed

/-- The static `MemoryManager::GetInstance()`; `inst` is the static `instance` pointer,
`none` for `nullptr`. -/
def GetInstance (inst : Option MemoryManager) : Except MemError MemoryManager :=
  match inst with
  | none => .error .UninitializedAccess
  | some m => .ok m

/-- The static `MemoryManager::AllocOnSingleFrame(size, alignment)`. -/
def AllocOnSingleFrame (inst : Option MemoryManager) (size alignment : Nat) :
    Except MemError Nat × Option MemoryManager :=
  match GetInstance inst with
  | .error e => (.error e, inst)
  | .ok m =>
    let r := m.singleFrameAllocator.Alloc size alignment
    (r.1, some { m with singleFrameAllocator := r.2 })

/-- The static `MemoryManager::AllocOnDoubleBuffered(size, alignment)`. -/
def AllocOnDoubleBuffered (inst : Option MemoryManager) (size alignment : Nat) :
    Except MemError Nat × Option MemoryManager :=
  match GetInstance inst with
  | .error e => (.error e, inst)
  | .ok m =>
    let r := m.doubleBufferedAllocator.Alloc size alignment
    (r.1, some { m with doubleBufferedAllocator := r.2 })

/-- The static `MemoryManager::AllocOnStack(size, alignment)`. -/
def AllocOnStack (inst : Option MemoryManager) (size alignment : Nat) :
    Except MemError Nat × Option MemoryManager :=
  match GetInstance inst with
  | .error e => (.error e, inst)
  | .ok m =>
    let r := m.lsrAndLevelAllocator.Alloc size alignment
    (r.1, some { m with lsrAndLevelAllocator := r.2 })

/-- The static `MemoryManager::AllocOnFreeList(size, alignment)`. -/
def AllocOnFreeList (inst : Option MemoryManager) (size alignment : Nat) :
    Except MemError Nat × Option MemoryManager :=
  match GetInstance inst with
  | .error e => (.error e, inst)
  | .ok m =>
    let r := m.freeListAllocator.Alloc size alignment
    (r.1, some { m with freeListAllocator := r.2 })

/-- The static `MemoryManager::ReallocOnFreeList(memPtr, size, alignment)`. -/
def ReallocOnFreeList (inst : Option MemoryManager) (memPtr size alignment : Nat) :
    Except MemError Nat × Option MemoryManager :=
  match GetInstance inst with
  | .error e => (.error e, inst)
  | .ok m =>
    let r := m.freeListAllocator.Realloc memPtr size alignment
    (r.1, some { m with freeListAllocator := r.2 })

/-- The static `MemoryManager::FreeOnFreeList(memPtr)`. -/
def FreeOnFreeList (inst : Option MemoryManager) (memPtr : Nat) :
    Except MemError Unit × Option MemoryManager :=
  match GetInstance inst with
  | .error e => (.error e, inst)
  | .ok m =>
    let r := m.freeListAllocator.Free memPtr
    (r.1, some { m with freeListAllocator := r.2 })

/-- The member `MemoryManager::StartUp()`: each allocator is replaced by one constructed
with its configured size.  The body has no failing path of its own, so the result is
always `ok`. -/
def StartUp (configs : MemoryConfig) (regions : BackingRegions) (m : MemoryManager) :
    Except MemError MemoryManager :=
  let m := { m with lsrAndLevelAllocator :=
    StackAllocator.create regions.lsrAndLevel configs.lsrAndLevelAllocatorSize }
  let m := { m with singleFrameAllocator :=
    StackAllocator.create regions.singleFrame configs.singleFrameAllocatorSize }
  let m := { m with doubleBufferedAllocator :=
    (DoubleBufferedAllocator.create regions.doubleBufferedA regions.doubleBufferedB
      configs.doubleBufferedAllocatorSize) }
  let m := { m with dynamicArena := MemoryArena.create configs.dynamicArenaSize }
  let m := { m with freeListAllocator :=
    FreeListAllocator.create regions.freeList configs.freeListAllocatorSize }
  .ok m

/-- The member `MemoryManager::Update()`. -/
def Update (m : MemoryManager) : MemoryManager :=
  let m := { m with singleFrameAllocator := m.singleFrameAllocator.Clear }
  let m := { m with doubleBufferedAllocator := m.doubleBufferedAllocator.SwapBuffer }
  let m := { m with doubleBufferedAllocator := m.doubleBufferedAllocator.ClearCurrentBuffer }
  { m with dynamicArena := m.dynamicArena.Defragment }

/-- The member `MemoryManager::ShutDown()`; the static `instance` pointer is not
touched. -/
def ShutDown (m : MemoryManager) : MemoryManager :=
  let m := { m with singleFrameAllocator := m.singleFrameAllocator.Erase }
  let m := { m with doubleBufferedAllocator := m.doubleBufferedAllocator.Erase }
  let m := { m with dynamicArena := m.dynamicArena.Erase }
  let m := { m with lsrAndLevelAllocator := m.lsrAndLevelAllocator.Erase }
  { m with freeListAllocator := m.freeListAllocator.Erase }

/-- The member `MemoryManager::FinishEngineStartupListener()`. -/
def FinishEngineStartupListener (m : MemoryManager) : MemoryManager :=
  { m with lvlMemStartMarker := m.lsrAndLevelAllocator.GetMarker }

/-- The member `MemoryManager::ClearLevelMemory()`. -/
def ClearLevelMemory (m : MemoryManager) : MemoryManager :=
  { m with lsrAndLevelAllocator := (m.lsrAndLevelAllocator.FreeToMarker m.lvlMemStartMarker) }

/-- Modelled from the spec: the static `MemoryManager::NewDynamic<U64>()` of the header,
which is not among the sources: a value-initialised `U64` constructed in the dynamic
arena of the instance. -/
def NewDynamicU64 (inst : Option MemoryManager) :
    Except MemError ObjectHandle × Option MemoryManager :=
  match GetInstance inst with
  | .error e => (.error e, inst)
  | .ok m =>
    let r := m.dynamicArena.NewDynamic (encodeLE 8 0)
    (r.1, some { m with dynamicArena := r.2 })

/-- Modelled from the spec: the static `MemoryManager::DeleteDynamic(handle)` of the
header, which is not among the sources. -/
def DeleteDynamic (inst : Option MemoryManager) (h : ObjectHandle) :
    Except MemError Unit × Option MemoryManager :=
  match GetInstance inst with
  | .error e => (.error e, inst)
  | .ok m =>
    let r := m.dynamicArena.DeleteDynamic h
    (r.1, some { m with dynamicArena := r.2 })

/-- The statement `*ref = value` on an `ObjectHandle<U64>`, which resolves through the
dynamic arena of the instance. -/
def assignU64 (inst : Option MemoryManager) (h : ObjectHandle) (value : Nat) :
    Except MemError Unit × Option MemoryManager :=
  match GetInstance inst with
  | .error e => (.error e, inst)
  | .ok m =>
    let r := ObjectHandle.assign m.dynamicArena h value
    (r.1, some { m with dynamicArena := r.2 })

/-- Reading `*ref` on an `ObjectHandle<U64>`, through the dynamic arena of the instance. -/
def readU64 (inst : Option MemoryManager) (h : ObjectHandle) : Except MemError Nat :=
  match GetInstance inst with
  | .error e => .error e
  | .ok m => ObjectHandle.read m.dynamicArena h

/-- The first loop of `MemoryManager::DefragmentTest`, from index `i` on with `remaining`
iterations to go: `auto ref = NewDynamic<U64>(); *ref = i; arr.PushBack(ref);`. -/
def createObjects : Nat → Nat → List ObjectHandle → Option MemoryManager →
    Except MemError (List ObjectHandle × Option MemoryManager)
  | 0, _, arr, inst => .ok (arr, inst)
  | remaining + 1, i, arr, inst =>
    match NewDynamicU64 inst with
    | (.error e, _) => .error e
    | (.ok ref, inst1) =>
      match assignU64 inst1 ref i with
      | (.error e, _) => .error e
      | (.ok _, inst2) => createObjects remaining (i + 1) (arr ++ [ref]) inst2

/-- A run of `DeleteDynamic` calls, one per handle of the list, in order. -/
def deleteObjects : List ObjectHandle → Option MemoryManager →
    Except MemError (Option MemoryManager)
  | [], inst => .ok inst
  | h :: rest, inst =>
    match DeleteDynamic inst h with
    | (.error e, _) => .error e
    | (.ok _, inst1) => deleteObjects rest inst1

/-- A run of `AllocOnStack` calls, one per `(size, alignment)` request, in order; a call
that throws leaves the state as it was and the run goes on. -/
def allocsOnStack : List (Nat × Nat) → Option MemoryManager → Option MemoryManager
  | [], inst => inst
  | (size, alignment) :: rest, inst => allocsOnStack rest (AllocOnStack inst size alignment).2

/-- A run of `AllocOnDoubleBuffered` calls, one per `(size, alignment)` request. -/
def allocsOnDoubleBuffered : List (Nat × Nat) → Option MemoryManager → Option MemoryManager
  | [], inst => inst
  | (size, alignment) :: rest, inst =>
    allocsOnDoubleBuffered rest (AllocOnDoubleBuffered inst size alignment).2

/-- The calls that touch level memory during a run of the engine. -/
inductive LevelCall where
  | allocOnStack (size alignment : Nat)
  | clearLevelMemory
  | update
  deriving DecidableEq, Repr

/-- One call of a run, on the manager `instance` points to. -/
def LevelCall.perform : LevelCall → Option MemoryManager → Option MemoryManager
  | .allocOnStack size alignment, inst => (AllocOnStack inst size alignment).2
  | .clearLevelMemory, inst => inst.map ClearLevelMemory
  | .update, inst => inst.map Update

/-- A run of level calls, in order. -/
def performAll (calls : List LevelCall) (inst : Option MemoryManager) : Option MemoryManager :=
  calls.foldl (fun w c => c.perform w) inst

/-- How a run of `DefragmentTest` can go wrong: `arr[index]` outside the array, or an
error raised by the memory core. -/
inductive TestFault where
  | indexOutOfBounds (index size : Nat)
  | memory (e : MemError)
  deriving DecidableEq, Repr

/-- One iteration of the second loop of `DefragmentTest` as it ran: the index drawn, the
size of `arr` when it was drawn, and the handle passed to `DeleteDynamic`. -/
structure DeleteStep where
  index : Nat
  size : Nat
  handle : ObjectHandle
  deriving DecidableEq, Repr

/-- The second loop of `MemoryManager::DefragmentTest`, from iteration `i` on with
`remaining` iterations to go:
`int index = Math::Random::GetRandomGenerator(0, arr.Size() - 1).GetValue();
DeleteDynamic(arr[index]); arr.Erase(arr.begin() + index);`.
`random i lo hi` is the value the generator made at iteration `i` for the range
`[lo, hi]` returns; `Array` is a list, `steps` records the iterations run so far.
`arr.Size() - 1` is taken on natural numbers; where the loop evaluates it the array is
not empty. -/
def deleteRandom (random : Nat → Nat → Nat → Nat) : Nat → Nat → List ObjectHandle →
    List DeleteStep → Option MemoryManager →
    Except TestFault (List ObjectHandle × List DeleteStep × Option MemoryManager)
  | 0, _, arr, steps, inst => .ok (arr, steps, inst)
  | remaining + 1, i, arr, steps, inst =>
    let index := random i 0 (arr.length - 1)
    match arr[index]? with
    | none => .error (.indexOutOfBounds index arr.length)
    | some ref =>
      match DeleteDynamic inst ref with
      | (.error e, _) => .error (.memory e)
      | (.ok _, inst1) =>
        deleteRandom random remaining (i + 1) (arr.eraseIdx index)
          (steps ++ [⟨index, arr.length, ref⟩]) inst1

/-- The member `MemoryManager::DefragmentTest()`: `count = 1024` objects are created, then
`count / 2` of them are deleted at random positions.  The copy `map` of the address index
map that the function takes between the loops is not used and is left out.  The result is
the array `arr` at the end, the iterations of the second loop, and the manager. -/
def DefragmentTest (random : Nat → Nat → Nat → Nat) (inst : Option MemoryManager) :
    Except TestFault (List ObjectHandle × List DeleteStep × Option MemoryManager) :=
  let count := 1024
  match createObjects count 0 [] inst with
  | .error e => .error (.memory e)
  | .ok (arr, inst1) => deleteRandom random (count / 2) 0 arr [] inst1

end MemoryManager

/-! ## NetworkingModule::Disconnect -/

/-- What a call of `NetworkingModule::Disconnect` ended with. -/
inductive DisconnectOutcome where
  | returnedEarly
  | threw
  | disconnected
  deriving DecidableEq, Repr

/-- The `NetworkingModule::Disconnect()` member; the two arguments are the answers of
`client->IsConnecting()` and `client->IsConnected()` of the yojimbo client, and
`disconnected` stands for the call of `client->Disconnect()`. -/
def NetworkingModule.Disconnect (isConnecting isConnected : Bool) : DisconnectOutcome :=
  if !isConnecting then .returnedEarly
  else if !isConnected then .threw
  else .disconnected

/-! ## Events -/

/-- A `StringId`, the value of the `SID` hash of a name. -/
abbrev StringId := Nat

/-- The identity of a callback (`Action<EventObject>`) held by the event system. -/
abbrev Action := Nat

/-- The part of `EventObject` that `Events.cpp` reads. -/
structure EventObject where
  eventName : String
  timeFrame : Nat
  deriving DecidableEq, Repr

/-- A `CallbackPair`: the handle given out at registration and the callback. -/
abbrev CallbackPair := Nat × Action

/-- The state of the event system that dispatch reads and writes: the `callbackMap`
(an unordered map from `StringId` to a vector of callback pairs) and the static
`totalListeners` counter of type `U16`. -/
structure Events where
  callbackMap : StringId → Option (List CallbackPair)
  totalListeners : Nat

namespace Events

/-- The event system before any listener was registered. -/
def initial : Events := { callbackMap := fun _ => none, totalListeners := 0 }

/-- The `Events::RegisterEventListener` member; `SID` is the hash macro of the engine. -/
def RegisterEventListener (SID : String → StringId) (e : Events) (eventName : String)
    (callback : Action) : Nat × Events :=
  let eventNameId := SID eventName
  let handle := e.totalListeners
  let totalListeners := (e.totalListeners + 1) % 65536
  match e.callbackMap eventNameId with
  | some callbacks =>
    (handle, { callbackMap := fun k =>
                if k = eventNameId then some (callbacks ++ [(handle, callback)])
                else e.callbackMap k,
               totalListeners := totalListeners })
  | none =>
    (handle, { callbackMap := fun k =>
                if k = eventNameId then some [(handle, callback)] else e.callbackMap k,
               totalListeners := totalListeners })

/-- The `Events::UnregisterEventListener` member: `remove_if` followed by `erase` drops
every pair that carries the handle and keeps the order of the others. -/
def UnregisterEventListener (SID : String → StringId) (e : Events) (eventName : String)
    (eventListenerHandle : Nat) : Events :=
  let eventNameId := SID eventName
  match e.callbackMap eventNameId with
  | some callbacks =>
    { e with callbackMap := fun k =>
        if k = eventNameId then some (callbacks.filter (fun pair => pair.1 != eventListenerHandle))
        else e.callbackMap k }
  | none => e

/-- The range-based `for` loop of `RaiseEventImmediate` over the copied vector: each
callback runs on the current state of the event system, which it may change (`run` is the
effect of a callback); the second component lists the callbacks invoked so far. -/
def dispatch (run : Action → EventObject → Events → Events) (eventObject : EventObject) :
    List CallbackPair → Events × List Action → Events × List Action
  | [], st => st
  | callbackPair :: rest, st =>
    dispatch run eventObject rest
      (run callbackPair.2 eventObject st.1, st.2 ++ [callbackPair.2])

/-- The `Events::RaiseEventImmediate` member: the state afterwards and the callbacks it
invoked, in order. -/
def RaiseEventImmediate (SID : String → StringId)
    (run : Action → EventObject → Events → Events) (e : Events) (eventObject : EventObject) :
    Events × List Action :=
  let eventNameId := SID eventObject.eventName
  match e.callbackMap eventNameId with
  | some callbacks => dispatch run eventObject callbacks (e, [])
  | none => (e, [])

/-- A call that changes the set of listeners. -/
inductive ListenerCall where
  | register (eventName : String) (callback : Action)
  | unregister (eventName : String) (eventListenerHandle : Nat)
  deriving DecidableEq, Repr

/-- One listener call on the event system. -/
def ListenerCall.perform (SID : String → StringId) (e : Events) : ListenerCall → Events
  | .register eventName callback => (RegisterEventListener SID e eventName callback).2
  | .unregister eventName handle => UnregisterEventListener SID e eventName handle

/-- The event system after a history of listener calls. -/
def after (SID : String → StringId) (history : List ListenerCall) : Events :=
  history.foldl (ListenerCall.perform SID) initial

/-- In the words of the claim: the listeners registered for an event name (names are
told apart by their `StringId`) after a history of calls, in registration order.  A
registration takes the next `U16` handle and joins the end; an unregistration removes
the listeners that hold its handle.  The first component counts the handles given out. -/
def registeredStep (SID : String → StringId) (eventNameId : StringId) :
    Nat × List CallbackPair → ListenerCall → Nat × List CallbackPair
  | (count, listeners), .register eventName callback =>
    ((count + 1) % 65536,
      if SID eventName = eventNameId then listeners ++ [(count, callback)] else listeners)
  | (count, listeners), .unregister eventName handle =>
    (count,
      if SID eventName = eventNameId then listeners.filter (fun pair => pair.1 != handle)
      else listeners)

/-- In the words of the claim: the callbacks registered for the event name when a call
begins after `history`, in registration order. -/
def registeredCallbacks (SID : String → StringId) (history : List ListenerCall)
    (eventName : String) : List Action :=
  ((history.foldl (registeredStep SID (SID eventName)) (0, [])).2).map (fun pair => pair.2)

end Events

end Isetta

/-! ## Properties of the memory manager facade -/

namespace Isetta

open MemoryManager

/-- A stack allocation never moves the cursor back, and changes nothing but the cursor. -/
theorem StackAllocator.Alloc_state (s : StackAllocator) (size alignment : Nat) :
    ∃ t, s.top ≤ t ∧ (s.Alloc size alignment).2 = { s with top := t } := by
  unfold StackAllocator.Alloc
  by_cases h : alignUp (s.base + s.top) alignment - s.base + size ≤ s.capacity
  · refine ⟨alignUp (s.base + s.top) alignment - s.base + size, ?_, ?_⟩
    · unfold alignUp
      omega
    · simp [h]
  · exact ⟨s.top, le_refl _, by simp [h]⟩

/-- A successful stack allocation returns an address at or above the cursor. -/
theorem StackAllocator.Alloc_address (s : StackAllocator) (size alignment addr : Nat)
    (h : (s.Alloc size alignment).1 = .ok addr) : s.base + s.top ≤ addr := by
  unfold StackAllocator.Alloc at h
  by_cases hc : alignUp (s.base + s.top) alignment - s.base + size ≤ s.capacity
  · simp [hc] at h
    rw [← h]
    unfold alignUp
    omega
  · simp [hc] at h

/-- A run of stack allocations on an existing manager changes only the cursor of the
level stack allocator. -/
theorem MemoryManager.allocsOnStack_state (reqs : List (Nat × Nat)) (m : MemoryManager) :
    ∃ t, allocsOnStack reqs (some m) =
      some { m with lsrAndLevelAllocator := { m.lsrAndLevelAllocator with top := t } } := by
  induction reqs generalizing m with
  | nil => exact ⟨m.lsrAndLevelAllocator.top, rfl⟩
  | cons r rest ih =>
    obtain ⟨size, alignment⟩ := r
    obtain ⟨t, -, ht⟩ := StackAllocator.Alloc_state m.lsrAndLevelAllocator size alignment
    have hstep : (AllocOnStack (some m) size alignment).2 =
        some { m with lsrAndLevelAllocator := { m.lsrAndLevelAllocator with top := t } } := by
      simp [AllocOnStack, GetInstance, ht]
    obtain ⟨t2, ht2⟩ := ih { m with lsrAndLevelAllocator := { m.lsrAndLevelAllocator with top := t } }
    exact ⟨t2, by simp only [allocsOnStack, hstep, ht2]⟩

/-- A run of double-buffered allocations on an existing manager changes only the cursor of
the current buffer. -/
theorem MemoryManager.allocsOnDoubleBuffered_state (reqs : List (Nat × Nat))
    (m : MemoryManager) :
    ∃ t, allocsOnDoubleBuffered reqs (some m) =
      some { m with doubleBufferedAllocator :=
        { m.doubleBufferedAllocator with
          current := { m.doubleBufferedAllocator.current with top := t } } } := by
  induction reqs generalizing m with
  | nil => exact ⟨m.doubleBufferedAllocator.current.top, rfl⟩
  | cons r rest ih =>
    obtain ⟨size, alignment⟩ := r
    obtain ⟨t, -, ht⟩ := StackAllocator.Alloc_state m.doubleBufferedAllocator.current size alignment
    have hstep : (AllocOnDoubleBuffered (some m) size alignment).2 =
        some { m with doubleBufferedAllocator :=
          { m.doubleBufferedAllocator with
            current := { m.doubleBufferedAllocator.current with top := t } } } := by
      simp [AllocOnDoubleBuffered, GetInstance, DoubleBufferedAllocator.Alloc, ht]
    obtain ⟨t2, ht2⟩ := ih { m with doubleBufferedAllocator :=
          { m.doubleBufferedAllocator with
            current := { m.doubleBufferedAllocator.current with top := t } } }
    exact ⟨t2, by simp only [allocsOnDoubleBuffered, hstep, ht2]⟩

/-- C1: the state after `MemoryManager::Update` is the state in which the single-frame
allocator was cleared, the double-buffered allocator was swapped and then had its current
buffer cleared, and the dynamic arena was defragmented; the level stack allocator, the
free-list allocator and the level marker are as before. -/
theorem update_is_clear_swap_clear_defragment (m : MemoryManager) :
    m.Update =
      { singleFrameAllocator := m.singleFrameAllocator.Clear
        doubleBufferedAllocator := m.doubleBufferedAllocator.SwapBuffer.ClearCurrentBuffer
        lsrAndLevelAllocator := m.lsrAndLevelAllocator
        freeListAllocator := m.freeListAllocator
        dynamicArena := m.dynamicArena.Defragment
        lvlMemStartMarker := m.lvlMemStartMarker } := by
  rfl

/-- C2: after `FinishEngineStartupListener` and a run of one or more `AllocOnStack` calls,
`ClearLevelMemory` puts the cursor of the level stack allocator back to its value at the
snapshot, and the next `AllocOnStack` with the size and alignment of the first call of
the run returns what that first call returned. -/
theorem clearLevelMemory_restores_snapshot (m : MemoryManager) (size alignment : Nat)
    (rest : List (Nat × Nat)) :
    ∃ cleared,
      (allocsOnStack ((size, alignment) :: rest) (some m.FinishEngineStartupListener)).map
          ClearLevelMemory = some cleared ∧
      cleared.lsrAndLevelAllocator.top = m.lsrAndLevelAllocator.top ∧
      cleared.lsrAndLevelAllocator = m.FinishEngineStartupListener.lsrAndLevelAllocator ∧
      (AllocOnStack (some cleared) size alignment).1 =
        (AllocOnStack (some m.FinishEngineStartupListener) size alignment).1 := by
  obtain ⟨t, ht⟩ := allocsOnStack_state ((size, alignment) :: rest) m.FinishEngineStartupListener
  rw [ht]
  exact ⟨_, rfl, rfl, rfl, rfl⟩

/-- A run of level calls on an existing manager whose cursor is at or above the marker
keeps the manager in existence, keeps the marker and the base of the level stack, and
keeps the cursor at or above the marker. -/
theorem MemoryManager.performAll_cursor (calls : List LevelCall) (m : MemoryManager)
    (hle : m.lvlMemStartMarker ≤ m.lsrAndLevelAllocator.top) :
    ∃ m', performAll calls (some m) = some m' ∧
      m'.lvlMemStartMarker = m.lvlMemStartMarker ∧
      m'.lsrAndLevelAllocator.base = m.lsrAndLevelAllocator.base ∧
      m.lvlMemStartMarker ≤ m'.lsrAndLevelAllocator.top := by
  induction calls generalizing m with
  | nil => exact ⟨m, rfl, rfl, rfl, hle⟩
  | cons c rest ih =>
    have hstep : ∃ m1, c.perform (some m) = some m1 ∧
        m1.lvlMemStartMarker = m.lvlMemStartMarker ∧
        m1.lsrAndLevelAllocator.base = m.lsrAndLevelAllocator.base ∧
        m.lvlMemStartMarker ≤ m1.lsrAndLevelAllocator.top := by
      cases c with
      | allocOnStack size alignment =>
        obtain ⟨t, hlt, ht⟩ := StackAllocator.Alloc_state m.lsrAndLevelAllocator size alignment
        refine ⟨{ m with lsrAndLevelAllocator := { m.lsrAndLevelAllocator with top := t } },
          ?_, rfl, rfl, le_trans hle hlt⟩
        simp [LevelCall.perform, AllocOnStack, GetInstance, ht]
      | clearLevelMemory => exact ⟨m.ClearLevelMemory, rfl, rfl, rfl, le_refl _⟩
      | update => exact ⟨m.Update, rfl, rfl, rfl, hle⟩
    obtain ⟨m1, h1, hm, hb, ht⟩ := hstep
    obtain ⟨m', h', hm', hb', ht'⟩ := ih m1 (by rw [hm]; exact ht)
    refine ⟨m', ?_, by rw [hm', hm], by rw [hb', hb], by rw [← hm]; exact ht'⟩
    simp only [performAll, List.foldl_cons] at h' ⊢
    rw [h1]
    exact h'

/-- C3, as the code has it: the six typed entry points fail with the initialization-order
error, and leave the state as it was without reaching an allocator, when no
`MemoryManager` object has been constructed (the static `instance` pointer is null). -/
theorem entry_points_fail_without_instance (memPtr size alignment : Nat) :
    AllocOnSingleFrame none size alignment = (.error .UninitializedAccess, none) ∧
    AllocOnDoubleBuffered none size alignment = (.error .UninitializedAccess, none) ∧
    AllocOnStack none size alignment = (.error .UninitializedAccess, none) ∧
    AllocOnFreeList none size alignment = (.error .UninitializedAccess, none) ∧
    ReallocOnFreeList none memPtr size alignment = (.error .UninitializedAccess, none) ∧
    FreeOnFreeList none memPtr = (.error .UninitializedAccess, none) :=
  ⟨rfl, rfl, rfl, rfl, rfl, rfl⟩

/-- C3 fails as stated: on a manager that was constructed but not started up, and on one
that was started up and shut down, `AllocOnSingleFrame` reaches the single-frame
allocator and returns what that allocator returns, which is not the initialization-order
error. -/
theorem entry_point_before_startup_reaches_allocator :
    (AllocOnSingleFrame MemoryManager.new 8 16).1 =
        (StackAllocator.unconstructed.Alloc 8 16).1 ∧
    (AllocOnSingleFrame MemoryManager.new 8 16).1 ≠ .error .UninitializedAccess ∧
    (AllocOnSingleFrame
        ((StartUp ⟨1024, 1024, 1024, 1024, 1024⟩ ⟨4096, 8192, 12288, 16384, 20480⟩
          defaultConstructed).toOption.map ShutDown) 8 16).1 ≠ .error .UninitializedAccess := by
  refine ⟨rfl, ?_, ?_⟩
  · intro h
    have h2 : (Except.error MemError.OutOfMemory : Except MemError Nat) =
        Except.error MemError.UninitializedAccess := h
    simp at h2
  · intro h
    have h2 : (Except.error MemError.OutOfMemory : Except MemError Nat) =
        Except.error MemError.UninitializedAccess := h
    simp at h2

/-- A successful stack allocation lies between the cursor before it and the cursor after
it. -/
theorem StackAllocator.Alloc_range (s : StackAllocator) (size alignment addr : Nat)
    (h : (s.Alloc size alignment).1 = .ok addr) :
    s.base + s.top ≤ addr ∧ addr + size ≤ s.base + (s.Alloc size alignment).2.top := by
  unfold StackAllocator.Alloc at h ⊢
  by_cases hc : alignUp (s.base + s.top) alignment - s.base + size ≤ s.capacity
  · simp only [hc, if_true, Except.ok.injEq] at h ⊢
    rw [← h]
    unfold alignUp
    omega
  · simp [hc] at h

/-- A run of double-buffered allocations on an existing manager keeps the manager in
existence, leaves the previous buffer as it was, and changes nothing of the current buffer
but its cursor, which does not move back. -/
theorem MemoryManager.allocsOnDoubleBuffered_grows (reqs : List (Nat × Nat))
    (m : MemoryManager) :
    ∃ m', allocsOnDoubleBuffered reqs (some m) = some m' ∧
      m'.doubleBufferedAllocator.previous = m.doubleBufferedAllocator.previous ∧
      m'.doubleBufferedAllocator.current.base = m.doubleBufferedAllocator.current.base ∧
      m.doubleBufferedAllocator.current.top ≤ m'.doubleBufferedAllocator.current.top := by
  induction reqs generalizing m with
  | nil => exact ⟨m, rfl, rfl, rfl, le_refl _⟩
  | cons r rest ih =>
    obtain ⟨size, alignment⟩ := r
    obtain ⟨t, hle, ht⟩ :=
      StackAllocator.Alloc_state m.doubleBufferedAllocator.current size alignment
    obtain ⟨m', h', hp, hb, hl⟩ := ih { m with doubleBufferedAllocator :=
      { m.doubleBufferedAllocator with
        current := (m.doubleBufferedAllocator.current.Alloc size alignment).2 } }
    refine ⟨m', h', hp, ?_, ?_⟩
    · rw [hb]
      show ((m.doubleBufferedAllocator.current.Alloc size alignment).2).base = _
      rw [ht]
    · have hl2 : ((m.doubleBufferedAllocator.current.Alloc size alignment).2).top ≤
          m'.doubleBufferedAllocator.current.top := hl
      rw [ht] at hl2
      exact le_trans hle hl2

/-- C4: an allocation made through `AllocOnDoubleBuffered` during a cycle, anywhere in the
run of allocations of that cycle, lies in the allocated part of the current buffer when
the cycle ends.  The `Update` that ends the cycle leaves that buffer as it was, cursor and
contents, in the role of the previous buffer, and resets only the cursor of the buffer
that becomes current; the allocations of the next cycle do not touch it, so the
allocation is still inside its allocated part.  The `Update` that ends the next cycle
makes the buffer current again with its cursor at the start of the region, so the
allocation then lies in the free part: it is reclaimed. -/
theorem double_buffered_allocation_survives_one_update (m : MemoryManager)
    (before after next : List (Nat × Nat)) (size alignment addr : Nat)
    (halloc : (AllocOnDoubleBuffered (allocsOnDoubleBuffered before (some m))
      size alignment).1 = .ok addr) :
    ∃ ended busy,
      allocsOnDoubleBuffered after
        (AllocOnDoubleBuffered (allocsOnDoubleBuffered before (some m)) size alignment).2 =
          some ended ∧
      ended.doubleBufferedAllocator.current.base ≤ addr ∧
      addr + size ≤ ended.doubleBufferedAllocator.current.base +
        ended.doubleBufferedAllocator.current.top ∧
      ended.Update.doubleBufferedAllocator.previous = ended.doubleBufferedAllocator.current ∧
      ended.Update.doubleBufferedAllocator.current =
        { ended.doubleBufferedAllocator.previous with top := 0 } ∧
      allocsOnDoubleBuffered next (some ended.Update) = some busy ∧
      busy.doubleBufferedAllocator.previous = ended.doubleBufferedAllocator.current ∧
      busy.doubleBufferedAllocator.previous.base ≤ addr ∧
      addr + size ≤ busy.doubleBufferedAllocator.previous.base +
        busy.doubleBufferedAllocator.previous.top ∧
      busy.Update.doubleBufferedAllocator.current =
        { ended.doubleBufferedAllocator.current with top := 0 } ∧
      busy.Update.doubleBufferedAllocator.current.base +
        busy.Update.doubleBufferedAllocator.current.top ≤ addr := by
  obtain ⟨m1, h1, -, -, -⟩ := allocsOnDoubleBuffered_grows before m
  rw [h1] at halloc ⊢
  have hres : (m1.doubleBufferedAllocator.current.Alloc size alignment).1 = .ok addr := halloc
  obtain ⟨hlow, hhigh⟩ := StackAllocator.Alloc_range _ size alignment addr hres
  obtain ⟨t, -, ht⟩ :=
    StackAllocator.Alloc_state m1.doubleBufferedAllocator.current size alignment
  obtain ⟨ended, h3, -, hb3, hl3⟩ := allocsOnDoubleBuffered_grows after
    { m1 with doubleBufferedAllocator :=
      { m1.doubleBufferedAllocator with
        current := (m1.doubleBufferedAllocator.current.Alloc size alignment).2 } }
  have hb3' : ended.doubleBufferedAllocator.current.base =
      ((m1.doubleBufferedAllocator.current.Alloc size alignment).2).base := hb3
  have hl3' : ((m1.doubleBufferedAllocator.current.Alloc size alignment).2).top ≤
      ended.doubleBufferedAllocator.current.top := hl3
  have hbase : ((m1.doubleBufferedAllocator.current.Alloc size alignment).2).base =
      m1.doubleBufferedAllocator.current.base := by rw [ht]
  obtain ⟨busy, h5, hp5, -, -⟩ := allocsOnDoubleBuffered_grows next ended.Update
  have hp5' : busy.doubleBufferedAllocator.previous = ended.doubleBufferedAllocator.current :=
    hp5
  have hin1 : ended.doubleBufferedAllocator.current.base ≤ addr := by omega
  have hin2 : addr + size ≤ ended.doubleBufferedAllocator.current.base +
      ended.doubleBufferedAllocator.current.top := by omega
  have hcur : busy.Update.doubleBufferedAllocator.current =
      { ended.doubleBufferedAllocator.current with top := 0 } := by
    show ({ busy.doubleBufferedAllocator.previous with top := 0 } : StackAllocator) = _
    rw [hp5']
  refine ⟨ended, busy, h3, hin1, hin2, rfl, rfl, h5, hp5', ?_, ?_, hcur, ?_⟩
  · rw [hp5']
    exact hin1
  · rw [hp5']
    exact hin2
  · rw [hcur]
    show ended.doubleBufferedAllocator.current.base + 0 ≤ addr
    omega

/-- Witness for C4: on double buffers of 1024 bytes at 12288 and 16384, the second
allocation of a cycle (24 bytes, alignment 8, after one of 8 bytes) returns 12296; after
the rest of the cycle, `Update` and the allocations of the next cycle, its 24 bytes are
inside the allocated part of the previous buffer, and after the next `Update` they are
at or above the cursor of the current buffer. -/
theorem double_buffered_allocation_survives_one_update_witness :
    (AllocOnDoubleBuffered (allocsOnDoubleBuffered [(8, 16)]
      (some { defaultConstructed with
        doubleBufferedAllocator := DoubleBufferedAllocator.create 12288 16384 1024 }))
      24 8).1 = .ok 12296 ∧
    ((allocsOnDoubleBuffered [(100, 16)]
      ((allocsOnDoubleBuffered [(4, 4)]
        (AllocOnDoubleBuffered (allocsOnDoubleBuffered [(8, 16)]
          (some { defaultConstructed with
            doubleBufferedAllocator := DoubleBufferedAllocator.create 12288 16384 1024 }))
          24 8).2).map Update)).map
      (fun busy => decide
        (busy.doubleBufferedAllocator.previous.base ≤ 12296 ∧
          12296 + 24 ≤ busy.doubleBufferedAllocator.previous.base +
            busy.doubleBufferedAllocator.previous.top ∧
          busy.Update.doubleBufferedAllocator.current.base +
            busy.Update.doubleBufferedAllocator.current.top ≤ 12296))) = some true := by
  have halloc : (AllocOnDoubleBuffered (allocsOnDoubleBuffered [(8, 16)]
      (some { defaultConstructed with
        doubleBufferedAllocator := DoubleBufferedAllocator.create 12288 16384 1024 }))
      24 8).1 = .ok 12296 := rfl
  obtain ⟨ended, busy, h1, -, -, -, -, h2, -, h3, h4, -, h5⟩ :=
    double_buffered_allocation_survives_one_update
      { defaultConstructed with
        doubleBufferedAllocator := DoubleBufferedAllocator.create 12288 16384 1024 }
      [(8, 16)] [(4, 4)] [(100, 16)] 24 8 12296 halloc
  refine ⟨halloc, ?_⟩
  rw [h1, Option.map_some', h2, Option.map_some']
  simp only [Option.some.injEq, decide_eq_true_eq]
  exact ⟨h3, h4, h5⟩

/-- C5: in every state reached after `FinishEngineStartupListener` by a run of
`AllocOnStack`, `ClearLevelMemory` and `Update` calls, the marker is still the snapshot,
the cursor of the level stack allocator is at or above it, and an `AllocOnStack` that
succeeds returns an address at or above the end of what was allocated before the
snapshot. -/
theorem level_cursor_never_below_marker (m : MemoryManager) (calls : List LevelCall) :
    ∃ reached, performAll calls (some m.FinishEngineStartupListener) = some reached ∧
      reached.lvlMemStartMarker = m.lsrAndLevelAllocator.top ∧
      m.lsrAndLevelAllocator.top ≤ reached.lsrAndLevelAllocator.top ∧
      ∀ size alignment : Nat,
        match (AllocOnStack (some reached) size alignment).1 with
        | .ok addr => m.lsrAndLevelAllocator.base + m.lsrAndLevelAllocator.top ≤ addr
        | .error _ => True := by
  obtain ⟨reached, hr, hm, hb, ht⟩ :=
    performAll_cursor calls m.FinishEngineStartupListener (le_refl _)
  refine ⟨reached, hr, hm, ht, ?_⟩
  intro size alignment
  have haddr := StackAllocator.Alloc_address reached.lsrAndLevelAllocator size alignment
  have hfst : (AllocOnStack (some reached) size alignment).1 =
      (reached.lsrAndLevelAllocator.Alloc size alignment).1 := rfl
  rw [hfst]
  cases hres : (reached.lsrAndLevelAllocator.Alloc size alignment).1 with
  | error e => trivial
  | ok addr =>
    have h1 := haddr addr hres
    have hb2 : reached.lsrAndLevelAllocator.base = m.lsrAndLevelAllocator.base := hb
    have ht2 : m.lsrAndLevelAllocator.top ≤ reached.lsrAndLevelAllocator.top := ht
    show m.lsrAndLevelAllocator.base + m.lsrAndLevelAllocator.top ≤ addr
    omega

/-- C6: on an existing manager each typed entry point returns what the operation of its
allocator returns on the same arguments, stores the state that operation leaves in that
allocator, and leaves the other four allocators and the level marker as they were. -/
theorem entry_points_route_to_their_allocator (m : MemoryManager)
    (memPtr size alignment : Nat) :
    AllocOnSingleFrame (some m) size alignment =
      ((m.singleFrameAllocator.Alloc size alignment).1,
        some { singleFrameAllocator := (m.singleFrameAllocator.Alloc size alignment).2
               doubleBufferedAllocator := m.doubleBufferedAllocator
               lsrAndLevelAllocator := m.lsrAndLevelAllocator
               freeListAllocator := m.freeListAllocator
               dynamicArena := m.dynamicArena
               lvlMemStartMarker := m.lvlMemStartMarker }) ∧
    AllocOnDoubleBuffered (some m) size alignment =
      ((m.doubleBufferedAllocator.Alloc size alignment).1,
        some { singleFrameAllocator := m.singleFrameAllocator
               doubleBufferedAllocator := (m.doubleBufferedAllocator.Alloc size alignment).2
               lsrAndLevelAllocator := m.lsrAndLevelAllocator
               freeListAllocator := m.freeListAllocator
               dynamicArena := m.dynamicArena
               lvlMemStartMarker := m.lvlMemStartMarker }) ∧
    AllocOnStack (some m) size alignment =
      ((m.lsrAndLevelAllocator.Alloc size alignment).1,
        some { singleFrameAllocator := m.singleFrameAllocator
               doubleBufferedAllocator := m.doubleBufferedAllocator
               lsrAndLevelAllocator := (m.lsrAndLevelAllocator.Alloc size alignment).2
               freeListAllocator := m.freeListAllocator
               dynamicArena := m.dynamicArena
               lvlMemStartMarker := m.lvlMemStartMarker }) ∧
    AllocOnFreeList (some m) size alignment =
      ((m.freeListAllocator.Alloc size alignment).1,
        some { singleFrameAllocator := m.singleFrameAllocator
               doubleBufferedAllocator := m.doubleBufferedAllocator
               lsrAndLevelAllocator := m.lsrAndLevelAllocator
               freeListAllocator := (m.freeListAllocator.Alloc size alignment).2
               dynamicArena := m.dynamicArena
               lvlMemStartMarker := m.lvlMemStartMarker }) ∧
    ReallocOnFreeList (some m) memPtr size alignment =
      ((m.freeListAllocator.Realloc memPtr size alignment).1,
        some { singleFrameAllocator := m.singleFrameAllocator
               doubleBufferedAllocator := m.doubleBufferedAllocator
               lsrAndLevelAllocator := m.lsrAndLevelAllocator
               freeListAllocator := (m.freeListAllocator.Realloc memPtr size alignment).2
               dynamicArena := m.dynamicArena
               lvlMemStartMarker := m.lvlMemStartMarker }) ∧
    FreeOnFreeList (some m) memPtr =
      ((m.freeListAllocator.Free memPtr).1,
        some { singleFrameAllocator := m.singleFrameAllocator
               doubleBufferedAllocator := m.doubleBufferedAllocator
               lsrAndLevelAllocator := m.lsrAndLevelAllocator
               freeListAllocator := (m.freeListAllocator.Free memPtr).2
               dynamicArena := m.dynamicArena
               lvlMemStartMarker := m.lvlMemStartMarker }) :=
  ⟨rfl, rfl, rfl, rfl, rfl, rfl⟩

/-- C7, as the code has it: for every configuration, one with a zero capacity included,
`StartUp` raises no error and constructs each of the five allocators with exactly its
configured capacity. -/
theorem startUp_constructs_configured_capacities (configs : MemoryConfig)
    (regions : BackingRegions) (m : MemoryManager) :
    ∃ started, StartUp configs regions m = .ok started ∧
      started.lsrAndLevelAllocator.capacity = configs.lsrAndLevelAllocatorSize ∧
      started.singleFrameAllocator.capacity = configs.singleFrameAllocatorSize ∧
      started.doubleBufferedAllocator.current.capacity = configs.doubleBufferedAllocatorSize ∧
      started.doubleBufferedAllocator.previous.capacity = configs.doubleBufferedAllocatorSize ∧
      started.dynamicArena.capacity = configs.dynamicArenaSize ∧
      started.freeListAllocator.capacity = configs.freeListAllocatorSize :=
  ⟨_, rfl, rfl, rfl, rfl, rfl, rfl, rfl⟩

/-- C7 fails as stated: with every capacity zero `StartUp` succeeds, and the single-frame
allocator and the dynamic arena it constructed have capacity zero. -/
theorem startUp_accepts_zero_capacity :
    (StartUp ⟨0, 0, 0, 0, 0⟩ ⟨4096, 8192, 12288, 16384, 20480⟩ defaultConstructed).isOk = true ∧
    (StartUp ⟨0, 0, 0, 0, 0⟩ ⟨4096, 8192, 12288, 16384, 20480⟩ defaultConstructed).toOption.map
      (fun started => (started.singleFrameAllocator.capacity, started.dynamicArena.capacity)) =
      some (0, 0) := by
  decide

/-- C9: with the client connected and not connecting, `NetworkingModule::Disconnect`
returns before it calls `client->Disconnect()`; with the client neither connecting nor
connected it returns without raising an error; `client->Disconnect()` is called only when
the client reports both connecting and connected. -/
theorem disconnect_returns_early_unless_connecting :
    NetworkingModule.Disconnect false true = .returnedEarly ∧
    NetworkingModule.Disconnect false false = .returnedEarly ∧
    ∀ isConnecting isConnected : Bool,
      (NetworkingModule.Disconnect isConnecting isConnected = .disconnected ↔
        (isConnecting = true ∧ isConnected = true)) := by
  decide

/-! ## Properties of event dispatch -/

/-- The loop over the copied vector invokes the callbacks of that vector, one after the
other, whatever the callbacks do to the event system. -/
theorem Events.dispatch_invoked (run : Action → EventObject → Events → Events)
    (eventObject : EventObject) (callbacks : List CallbackPair) (st : Events × List Action) :
    (Events.dispatch run eventObject callbacks st).2 =
      st.2 ++ callbacks.map (fun pair => pair.2) := by
  induction callbacks generalizing st with
  | nil => simp [Events.dispatch]
  | cons c rest ih => simp [Events.dispatch, ih]

/-- One listener call keeps the vector stored under an identifier equal to the list of
registered listeners, and the counter equal to the number of handles given out. -/
theorem Events.perform_registeredStep (SID : String → StringId) (eventNameId : StringId)
    (e : Events) (st : Nat × List CallbackPair) (c : Events.ListenerCall)
    (hcount : e.totalListeners = st.1)
    (hmap : (e.callbackMap eventNameId).getD [] = st.2) :
    (Events.ListenerCall.perform SID e c).totalListeners =
        (Events.registeredStep SID eventNameId st c).1 ∧
      ((Events.ListenerCall.perform SID e c).callbackMap eventNameId).getD [] =
        (Events.registeredStep SID eventNameId st c).2 := by
  obtain ⟨count, listeners⟩ := st
  simp only at hcount hmap
  subst hcount
  subst hmap
  cases c with
  | register eventName callback =>
    by_cases hid : SID eventName = eventNameId
    · subst hid
      cases hm : e.callbackMap (SID eventName) <;>
        simp [Events.ListenerCall.perform, Events.RegisterEventListener,
          Events.registeredStep, hm]
    · have hid2 : ¬ eventNameId = SID eventName := fun h => hid h.symm
      cases hm : e.callbackMap (SID eventName) <;>
        simp [Events.ListenerCall.perform, Events.RegisterEventListener,
          Events.registeredStep, hm, hid, hid2]
  | unregister eventName handle =>
    by_cases hid : SID eventName = eventNameId
    · subst hid
      cases hm : e.callbackMap (SID eventName) <;>
        simp [Events.ListenerCall.perform, Events.UnregisterEventListener,
          Events.registeredStep, hm]
    · have hid2 : ¬ eventNameId = SID eventName := fun h => hid h.symm
      cases hm : e.callbackMap (SID eventName) <;>
        simp [Events.ListenerCall.perform, Events.UnregisterEventListener,
          Events.registeredStep, hm, hid, hid2]

/-- A history of listener calls keeps the vector stored under an identifier equal to the
list of registered listeners. -/
theorem Events.foldl_registeredStep (SID : String → StringId) (eventNameId : StringId)
    (history : List Events.ListenerCall) (e : Events) (st : Nat × List CallbackPair)
    (hcount : e.totalListeners = st.1)
    (hmap : (e.callbackMap eventNameId).getD [] = st.2) :
    ((history.foldl (Events.ListenerCall.perform SID) e).callbackMap eventNameId).getD [] =
      (history.foldl (Events.registeredStep SID eventNameId) st).2 := by
  induction history generalizing e st with
  | nil => exact hmap
  | cons c rest ih =>
    obtain ⟨h1, h2⟩ := Events.perform_registeredStep SID eventNameId e st c hcount hmap
    exact ih _ _ h1 h2

/-- C10: after any history of register and unregister calls, `RaiseEventImmediate` invokes
exactly the callbacks registered for the name of the event when the call begins, once per
registration and in registration order, whatever the callbacks do to the event system
during the dispatch (`run` is arbitrary, so it may register and unregister listeners of
the same event). -/
theorem raiseEventImmediate_invokes_snapshot (SID : String → StringId)
    (run : Action → EventObject → Events → Events) (history : List Events.ListenerCall)
    (eventObject : EventObject) :
    (Events.RaiseEventImmediate SID run (Events.after SID history) eventObject).2 =
      Events.registeredCallbacks SID history eventObject.eventName := by
  have hinv := Events.foldl_registeredStep SID (SID eventObject.eventName) history
    Events.initial (0, []) rfl rfl
  unfold Events.registeredCallbacks
  rw [← hinv]
  unfold Events.RaiseEventImmediate Events.after
  cases hm : (List.foldl (Events.ListenerCall.perform SID) Events.initial history).callbackMap
      (SID eventObject.eventName) with
  | none => simp [hm]
  | some callbacks => simp [hm, Events.dispatch_invoked]

/-! ## Properties of the dynamic arena -/

/-- Reading `n` bytes gives `n` bytes. -/
theorem readBytes_length (mem : Nat → Nat) (off n : Nat) : (readBytes mem off n).length = n := by
  simp [readBytes]

/-- Reading depends only on the bytes of the range read. -/
theorem readBytes_congr (mem mem' : Nat → Nat) (off n : Nat)
    (h : ∀ a, off ≤ a → a < off + n → mem a = mem' a) :
    readBytes mem off n = readBytes mem' off n := by
  unfold readBytes
  apply List.map_congr_left
  intro k hk
  have hk' : k < n := List.mem_range.mp hk
  exact h (off + k) (by omega) (by omega)

/-- Bytes that were stored are read back. -/
theorem readBytes_writeBytes_same (mem : Nat → Nat) (off : Nat) (bytes : List Nat) :
    readBytes (writeBytes mem off bytes) off bytes.length = bytes := by
  apply List.ext_getElem
  · simp [readBytes]
  · intro k h1 h2
    simp only [readBytes, List.getElem_map, List.getElem_range, writeBytes]
    have hlt : off + k < off + bytes.length := by omega
    simp [hlt, List.getD_eq_getElem?_getD, List.getElem?_eq_getElem h2]

/-- A store does not show in a range it does not overlap. -/
theorem readBytes_writeBytes_disjoint (mem : Nat → Nat) (off off' n : Nat) (bytes : List Nat)
    (h : off' + n ≤ off ∨ off + bytes.length ≤ off') :
    readBytes (writeBytes mem off bytes) off' n = readBytes mem off' n := by
  apply readBytes_congr
  intro a h1 h2
  unfold writeBytes
  have : ¬ (off ≤ a ∧ a < off + bytes.length) := by omega
  simp [this]

/-- The encoding on `n` bytes has `n` bytes. -/
theorem encodeLE_length (n v : Nat) : (encodeLE n v).length = n := by
  induction n generalizing v with
  | zero => rfl
  | succ n ih => simp [encodeLE, ih]

/-- Decoding the `n` little-endian bytes of a value gives its low `8 * n` bits. -/
theorem decodeLE_encodeLE (n v : Nat) : decodeLE (encodeLE n v) = v % 256 ^ n := by
  induction n generalizing v with
  | zero => simp [encodeLE, decodeLE, Nat.mod_one]
  | succ n ih =>
    simp only [encodeLE, decodeLE, ih]
    rw [pow_succ, Nat.mul_comm (256 ^ n) 256, Nat.mod_mul]

namespace MemoryArena

/-- Ordered slots stay ordered when the scan starts earlier. -/
theorem slotsOrdered_mono (capacity c c' : Nat) (l : List ArenaSlot)
    (h : slotsOrdered capacity c' l) (hc : c ≤ c') : slotsOrdered capacity c l := by
  cases l with
  | nil => exact le_trans hc h
  | cons s rest => exact ⟨le_trans hc h.1, h.2⟩

/-- Every slot of an ordered list starts at or after the start of the scan. -/
theorem slotsOrdered_offset (capacity : Nat) (l : List ArenaSlot) (c : Nat)
    (h : slotsOrdered capacity c l) : ∀ t ∈ l, c ≤ t.offset := by
  induction l generalizing c with
  | nil => intro t ht; cases ht
  | cons s rest ih =>
    intro t ht
    rcases List.mem_cons.mp ht with rfl | hmem
    · exact h.1
    · have := ih (s.offset + s.size) h.2 t hmem
      have := h.1
      omega

/-- With distinct identifiers, looking an identifier up finds the slot that carries it. -/
theorem find_of_mem (l : List ArenaSlot) (hnd : (l.map (fun s => s.id)).Nodup)
    (s : ArenaSlot) (hs : s ∈ l) : l.find? (fun t => t.id == s.id) = some s := by
  induction l with
  | nil => cases hs
  | cons x xs ih =>
    rw [List.map_cons, List.nodup_cons] at hnd
    rcases List.mem_cons.mp hs with rfl | hmem
    · simp
    · have hne : x.id ≠ s.id := by
        intro heq
        exact hnd.1 (heq ▸ List.mem_map_of_mem (fun s => s.id) hmem)
      simp [List.find?_cons, hne, ih hnd.2 hmem]

/-- With distinct identifiers, the lookup does not depend on the order of the slots. -/
theorem find_perm (l l' : List ArenaSlot) (hp : l.Perm l')
    (hnd : (l.map (fun s => s.id)).Nodup) (id : Nat) :
    l.find? (fun t => t.id == id) = l'.find? (fun t => t.id == id) := by
  have hnd' : (l'.map (fun s => s.id)).Nodup := (hp.map _).nodup_iff.mp hnd
  cases h : l.find? (fun t => t.id == id) with
  | none =>
    symm
    rw [List.find?_eq_none] at h ⊢
    intro t ht
    exact h t (hp.mem_iff.mpr ht)
  | some s =>
    have hmem : s ∈ l := List.mem_of_find?_eq_some h
    have hid : s.id = id := by simpa using List.find?_some h
    subst hid
    exact (find_of_mem l' hnd' s (hp.mem_iff.mp hmem)).symm

/-- Placing a new slot keeps the slots ordered, puts the slot into a range that no other
slot overlaps, and adds nothing else to the slot map. -/
theorem place_spec (capacity id size : Nat) (l : List ArenaSlot) (cur off : Nat)
    (l' : List ArenaSlot) (hord : slotsOrdered capacity cur l)
    (hp : place capacity id size cur l = some (off, l')) :
    slotsOrdered capacity cur l' ∧ cur ≤ off ∧
      (∀ t ∈ l, t.offset + t.size ≤ off ∨ off + size ≤ t.offset) ∧
      l'.Perm (⟨id, off, size⟩ :: l) := by
  induction l generalizing cur l' with
  | nil =>
    unfold place at hp
    by_cases hfit : cur + size ≤ capacity
    · simp only [hfit, if_true, Option.some.injEq, Prod.mk.injEq] at hp
      obtain ⟨rfl, rfl⟩ := hp
      exact ⟨⟨le_refl _, hfit⟩, le_refl _, fun t ht => (by cases ht), List.Perm.refl _⟩
    · simp [hfit] at hp
  | cons s rest ih =>
    unfold place at hp
    by_cases hfit : cur + size ≤ s.offset
    · simp only [hfit, if_true, Option.some.injEq, Prod.mk.injEq] at hp
      obtain ⟨rfl, rfl⟩ := hp
      refine ⟨⟨le_refl _, hfit, hord.2⟩, le_refl _, ?_, List.Perm.refl _⟩
      intro t ht
      right
      rcases List.mem_cons.mp ht with rfl | hmem
      · exact hfit
      · have := slotsOrdered_offset capacity rest _ hord.2 t hmem
        omega
    · simp only [hfit, if_false] at hp
      cases hrec : place capacity id size (s.offset + s.size) rest with
      | none => simp [hrec] at hp
      | some r =>
        obtain ⟨off2, l2⟩ := r
        simp only [hrec, Option.map_some', Option.some.injEq, Prod.mk.injEq] at hp
        obtain ⟨rfl, rfl⟩ := hp
        obtain ⟨h1, h2, h3, h4⟩ := ih (s.offset + s.size) l2 hord.2 hrec
        refine ⟨⟨hord.1, h1⟩, by have := hord.1; omega, ?_, ?_⟩
        · intro t ht
          rcases List.mem_cons.mp ht with rfl | hmem
          · exact Or.inl h2
          · exact h3 t hmem
        · exact (List.Perm.cons s h4).trans (List.Perm.swap _ _ _)

/-- The content of an identifier, once its slot is known. -/
theorem content_of_find (a : MemoryArena) (id : Nat) (s : ArenaSlot)
    (h : a.slots.find? (fun t => t.id == id) = some s) :
    a.content id = some (readBytes a.mem s.offset s.size) := by
  simp [content, h]

/-- A live identifier has a slot whose bytes are its content. -/
theorem slot_of_content (a : MemoryArena) (id : Nat) (bytes : List Nat)
    (h : a.content id = some bytes) :
    ∃ s, a.slots.find? (fun t => t.id == id) = some s ∧ s ∈ a.slots ∧ s.id = id ∧
      readBytes a.mem s.offset s.size = bytes ∧ s.size = bytes.length := by
  unfold content at h
  cases hf : a.slots.find? (fun t => t.id == id) with
  | none => simp [hf] at h
  | some s =>
    simp only [hf, Option.map_some', Option.some.injEq] at h
    refine ⟨s, rfl, List.mem_of_find?_eq_some hf, by simpa using List.find?_some hf, h, ?_⟩
    rw [← h, readBytes_length]

/-- `NewDynamic` on a well-formed arena: the handle carries the next identifier, the arena
stays well formed, the new object holds the bytes it was constructed with and every other
identifier keeps its content. -/
theorem NewDynamic_spec (a a' : MemoryArena) (bytes : List Nat) (h : ObjectHandle)
    (hwf : a.WellFormed) (hnew : a.NewDynamic bytes = (.ok h, a')) :
    h.id = a.nextId ∧ a'.WellFormed ∧ a'.nextId = a.nextId + 1 ∧
      ∀ id, a'.content id = if id = a.nextId then some bytes else a.content id := by
  obtain ⟨hord, hlt, hnd⟩ := hwf
  unfold NewDynamic at hnew
  cases hpl : place a.capacity a.nextId bytes.length 0 a.slots with
  | none => simp [hpl] at hnew
  | some r =>
    obtain ⟨off, slots⟩ := r
    simp only [hpl, Prod.mk.injEq, Except.ok.injEq] at hnew
    obtain ⟨rfl, rfl⟩ := hnew
    obtain ⟨h1, -, h3, h4⟩ := place_spec _ _ _ _ _ _ _ hord hpl
    have hfresh : a.nextId ∉ a.slots.map (fun s => s.id) := by
      intro hmem
      obtain ⟨t, ht, hid⟩ := List.mem_map.mp hmem
      have := hlt t ht
      omega
    have hnd2 : ((⟨a.nextId, off, bytes.length⟩ :: a.slots).map (fun s => s.id)).Nodup := by
      rw [List.map_cons, List.nodup_cons]
      exact ⟨hfresh, hnd⟩
    have hnd3 : (slots.map (fun s => s.id)).Nodup := (h4.map _).nodup_iff.mpr hnd2
    refine ⟨rfl, ⟨h1, ?_, hnd3⟩, rfl, ?_⟩
    · intro s hs
      rcases List.mem_cons.mp (h4.mem_iff.mp hs) with rfl | hmem
      · exact Nat.lt_succ_self _
      · exact Nat.lt_succ_of_lt (hlt s hmem)
    · intro id
      have hfind := find_perm slots _ h4 hnd3 id
      by_cases hid : id = a.nextId
      · subst hid
        simp only [content, hfind, List.find?_cons, beq_self_eq_true, Option.map_some', if_true]
        rw [readBytes_writeBytes_same]
      · have hid2 : ¬ a.nextId = id := fun h => hid h.symm
        simp only [content, hfind, List.find?_cons, hid, if_false]
        have hb : (a.nextId == id) = false := by simpa using hid2
        simp only [hb]
        cases hf : a.slots.find? (fun t => t.id == id) with
        | none => rfl
        | some t =>
          simp only [Option.map_some', Option.some.injEq]
          apply readBytes_writeBytes_disjoint
          exact h3 t (List.mem_of_find?_eq_some hf)

end MemoryArena

namespace MemoryArena

/-- Two slots of an ordered list with different identifiers do not overlap. -/
theorem slots_disjoint (capacity : Nat) (l : List ArenaSlot) (c : Nat)
    (hord : slotsOrdered capacity c l) :
    ∀ s ∈ l, ∀ t ∈ l, s.id ≠ t.id →
      s.offset + s.size ≤ t.offset ∨ t.offset + t.size ≤ s.offset := by
  induction l generalizing c with
  | nil => intro s hs; cases hs
  | cons x xs ih =>
    intro s hs t ht hne
    rcases List.mem_cons.mp hs with rfl | hs'
    · rcases List.mem_cons.mp ht with rfl | ht'
      · exact absurd rfl hne
      · exact Or.inl (slotsOrdered_offset capacity xs _ hord.2 t ht')
    · rcases List.mem_cons.mp ht with rfl | ht'
      · exact Or.inr (slotsOrdered_offset capacity xs _ hord.2 s hs')
      · exact ih _ hord.2 s hs' t ht' hne

/-- Removing slots keeps the remaining ones ordered. -/
theorem slotsOrdered_filter (capacity : Nat) (p : ArenaSlot → Bool) (l : List ArenaSlot)
    (c : Nat) (hord : slotsOrdered capacity c l) : slotsOrdered capacity c (l.filter p) := by
  induction l generalizing c with
  | nil => exact hord
  | cons x xs ih =>
    by_cases hp : p x = true
    · rw [List.filter_cons_of_pos hp]
      exact ⟨hord.1, ih _ hord.2⟩
    · rw [List.filter_cons_of_neg hp]
      exact slotsOrdered_mono capacity c _ _ (ih _ hord.2) (by have := hord.1; omega)

/-- Looking an identifier up after the slot of another identifier was removed. -/
theorem find_filter (l : List ArenaSlot) (removed id : Nat) :
    (l.filter (fun s => s.id != removed)).find? (fun t => t.id == id) =
      if id = removed then none else l.find? (fun t => t.id == id) := by
  induction l with
  | nil => simp
  | cons x xs ih =>
    by_cases hx : x.id = removed
    · have hb : (x.id != removed) = false := by simp [hx]
      rw [List.filter_cons_of_neg (by simp [hb]), ih]
      by_cases hid : id = removed
      · simp [hid]
      · have hne : ¬ x.id = id := by rw [hx]; exact fun h => hid h.symm
        simp [hid, List.find?_cons, hne]
    · have hb : (x.id != removed) = true := by simp [hx]
      simp only [List.filter_cons, hb, if_true]
      rw [List.find?_cons, List.find?_cons, ih]
      by_cases hid : id = removed
      · subst hid
        have hbeq : (x.id == id) = false := by simpa using hx
        simp [hbeq]
      · simp [hid]

/-- `DeleteDynamic` on a well-formed arena: the arena stays well formed, the deleted
identifier has no content any more and every other identifier keeps its content. -/
theorem DeleteDynamic_spec (a a' : MemoryArena) (h : ObjectHandle)
    (hwf : a.WellFormed) (hdel : a.DeleteDynamic h = (.ok (), a')) :
    a'.WellFormed ∧ a'.nextId = a.nextId ∧
      ∀ id, a'.content id = if id = h.id then none else a.content id := by
  obtain ⟨hord, hlt, hnd⟩ := hwf
  unfold DeleteDynamic at hdel
  cases hs : a.slotOf h with
  | none => simp [hs] at hdel
  | some s =>
    simp only [hs, Prod.mk.injEq, true_and] at hdel
    subst hdel
    refine ⟨⟨slotsOrdered_filter _ _ _ _ hord, ?_, ?_⟩, rfl, ?_⟩
    · intro t ht
      exact hlt t (List.mem_of_mem_filter ht)
    · exact hnd.sublist ((List.filter_sublist _).map _)
    · intro id
      simp only [content, find_filter]
      by_cases hid : id = h.id <;> simp [hid]

/-- Storing through a handle whose object is live and eight bytes long: the arena stays
well formed, the object holds the bytes of the value and every other identifier keeps its
content. -/
theorem assign_spec (a : MemoryArena) (h : ObjectHandle) (value : Nat) (old : List Nat)
    (hwf : a.WellFormed) (hc : a.content h.id = some old) (hlen : old.length = 8) :
    ∃ a', ObjectHandle.assign a h value = (.ok (), a') ∧ a'.WellFormed ∧
      a'.nextId = a.nextId ∧
      ∀ id, a'.content id = if id = h.id then some (encodeLE 8 value) else a.content id := by
  obtain ⟨s, hfind, hmem, hsid, -, hsize⟩ := slot_of_content a h.id old hc
  have hs8 : s.size = 8 := by rw [hsize, hlen]
  refine ⟨{ a with mem := writeBytes a.mem s.offset (encodeLE 8 value) }, ?_, hwf, rfl, ?_⟩
  · simp [ObjectHandle.assign, slotOf, hfind]
  · intro id
    by_cases hid : id = h.id
    · subst hid
      simp only [content, hfind, Option.map_some', if_true]
      have := readBytes_writeBytes_same a.mem s.offset (encodeLE 8 value)
      rw [encodeLE_length] at this
      rw [hs8, this]
    · simp only [hid, if_false]
      cases hf : a.slots.find? (fun t => t.id == id) with
      | none => simp [content, hf]
      | some t =>
        simp only [content, hf, Option.map_some', Option.some.injEq]
        apply readBytes_writeBytes_disjoint
        have htid : t.id = id := by simpa using List.find?_some hf
        have hne : t.id ≠ s.id := by rw [htid, hsid]; exact hid
        have := slots_disjoint _ _ _ hwf.1 t (List.mem_of_find?_eq_some hf) s hmem hne
        rw [encodeLE_length]
        omega

/-- Compaction of ordered slots: the slots stay ordered and keep their identifiers, no byte
below the cursor changes, and every object holds after the pass the bytes it held
before. -/
theorem compact_spec (capacity : Nat) (l : List ArenaSlot) (cur : Nat) (mem : Nat → Nat)
    (hord : slotsOrdered capacity cur l) :
    slotsOrdered capacity cur (compact cur l mem).1 ∧
      (compact cur l mem).1.map (fun s => s.id) = l.map (fun s => s.id) ∧
      (∀ addr, addr < cur → (compact cur l mem).2 addr = mem addr) ∧
      ∀ id, ((compact cur l mem).1.find? (fun t => t.id == id)).map
          (fun s => readBytes (compact cur l mem).2 s.offset s.size) =
        (l.find? (fun t => t.id == id)).map (fun s => readBytes mem s.offset s.size) := by
  induction l generalizing cur mem with
  | nil => exact ⟨hord, rfl, fun _ _ => rfl, fun _ => rfl⟩
  | cons s rest ih =>
    have hcur : cur ≤ s.offset := hord.1
    have hord' : slotsOrdered capacity (cur + s.size) rest :=
      slotsOrdered_mono capacity _ _ _ hord.2 (by omega)
    obtain ⟨h1, h2, h3, h4⟩ :=
      ih (cur + s.size) (writeBytes mem cur (readBytes mem s.offset s.size)) hord'
    have hframe : ∀ addr, addr < cur →
        writeBytes mem cur (readBytes mem s.offset s.size) addr = mem addr := by
      intro addr haddr
      unfold writeBytes
      have : ¬ (cur ≤ addr ∧ addr < cur + (readBytes mem s.offset s.size).length) := by omega
      simp [this]
    refine ⟨⟨le_refl _, h1⟩, by simp [compact, h2], ?_, ?_⟩
    · intro addr haddr
      simp only [compact]
      rw [h3 addr (by omega), hframe addr haddr]
    · intro id
      by_cases hid : s.id = id
      · simp only [compact, List.find?_cons, hid, beq_self_eq_true, Option.map_some']
        have hsame := readBytes_writeBytes_same mem cur (readBytes mem s.offset s.size)
        rw [readBytes_length] at hsame
        have hkept : readBytes
            (compact (cur + s.size) rest (writeBytes mem cur (readBytes mem s.offset s.size))).2
            cur s.size =
            readBytes (writeBytes mem cur (readBytes mem s.offset s.size)) cur s.size :=
          readBytes_congr _ _ _ _ (fun addr _ hlt => h3 addr hlt)
        rw [hkept, hsame]
      · have hb : (s.id == id) = false := by simpa using hid
        simp only [compact, List.find?_cons, hb]
        rw [h4 id]
        cases hf : rest.find? (fun t => t.id == id) with
        | none => rfl
        | some t =>
          simp only [Option.map_some', Option.some.injEq]
          apply readBytes_writeBytes_disjoint
          have := slotsOrdered_offset capacity rest _ hord.2 t (List.mem_of_find?_eq_some hf)
          rw [readBytes_length]
          omega

/-- `Defragment` on a well-formed arena: the arena stays well formed and every identifier
keeps its content (relocation transparency). -/
theorem Defragment_spec (a : MemoryArena) (hwf : a.WellFormed) :
    a.Defragment.WellFormed ∧ a.Defragment.nextId = a.nextId ∧
      ∀ id, a.Defragment.content id = a.content id := by
  obtain ⟨hord, hlt, hnd⟩ := hwf
  obtain ⟨h1, h2, -, h4⟩ := compact_spec a.capacity a.slots 0 a.mem hord
  refine ⟨⟨h1, ?_, ?_⟩, rfl, fun id => h4 id⟩
  · intro s hs
    have hmem : s.id ∈ (compact 0 a.slots a.mem).1.map (fun s => s.id) :=
      List.mem_map_of_mem (fun s => s.id) hs
    rw [h2] at hmem
    obtain ⟨t, ht, hid⟩ := List.mem_map.mp hmem
    have := hlt t ht
    show s.id < a.nextId
    omega
  · show ((compact 0 a.slots a.mem).1.map (fun s => s.id)).Nodup
    rw [h2]
    exact hnd

/-- Reading through a handle whose object holds the bytes of a value gives the low 64 bits
of the value. -/
theorem read_of_content (a : MemoryArena) (h : ObjectHandle) (value : Nat)
    (hc : a.content h.id = some (encodeLE 8 value)) :
    ObjectHandle.read a h = .ok (value % 2 ^ 64) := by
  obtain ⟨s, hfind, -, -, hread, hsize⟩ := slot_of_content a h.id _ hc
  rw [encodeLE_length] at hsize
  rw [hsize] at hread
  simp only [ObjectHandle.read, slotOf, hfind, hread, decodeLE_encodeLE]
  norm_num

end MemoryArena

/-- The creation loop on a manager with a well-formed arena: the handles pushed carry the
next identifiers in order, and the object of the `k`-th of them holds the bytes of the
value `i + k`; every other identifier keeps its content. -/
theorem MemoryManager.createObjects_spec (remaining i : Nat) (arr : List ObjectHandle)
    (m : MemoryManager) (arr' : List ObjectHandle) (inst' : Option MemoryManager)
    (hwf : m.dynamicArena.WellFormed)
    (h : createObjects remaining i arr (some m) = .ok (arr', inst')) :
    ∃ m', inst' = some m' ∧ m'.dynamicArena.WellFormed ∧
      arr' = arr ++ (List.range remaining).map (fun k => ⟨m.dynamicArena.nextId + k⟩) ∧
      ∀ id, m'.dynamicArena.content id =
        if m.dynamicArena.nextId ≤ id ∧ id < m.dynamicArena.nextId + remaining then
          some (encodeLE 8 (i + (id - m.dynamicArena.nextId)))
        else m.dynamicArena.content id := by
  induction remaining generalizing i arr m with
  | zero =>
    simp only [createObjects, Except.ok.injEq, Prod.mk.injEq] at h
    obtain ⟨rfl, rfl⟩ := h
    refine ⟨m, rfl, hwf, by simp, ?_⟩
    intro id
    have : ¬ (m.dynamicArena.nextId ≤ id ∧ id < m.dynamicArena.nextId + 0) := by omega
    rw [if_neg this]
  | succ remaining ih =>
    cases hnew : m.dynamicArena.NewDynamic (encodeLE 8 0) with
    | mk r1 a1 =>
      cases r1 with
      | error e => simp [createObjects, NewDynamicU64, GetInstance, hnew] at h
      | ok ref =>
        obtain ⟨hid, hwf1, hnext1, hc1⟩ := MemoryArena.NewDynamic_spec _ _ _ _ hwf hnew
        have hold : a1.content ref.id = some (encodeLE 8 0) := by
          rw [hc1, hid]
          simp
        obtain ⟨a2, hassign, hwf2, hnext2, hc2⟩ :=
          MemoryArena.assign_spec a1 ref i _ hwf1 hold (encodeLE_length 8 0)
        simp only [createObjects, NewDynamicU64, GetInstance, hnew, assignU64, hassign] at h
        obtain ⟨m', hm', hwf', harr, hc'⟩ := ih (i + 1) (arr ++ [ref])
          { m with dynamicArena := a2 } hwf2 h
        refine ⟨m', hm', hwf', ?_, ?_⟩
        · rw [harr]
          have href : ref = ⟨m.dynamicArena.nextId⟩ := by
            cases ref
            simp only at hid
            rw [hid]
          simp only [hnext2, hnext1, href, List.range_succ_eq_map, List.map_cons, List.map_map,
            List.append_assoc, List.singleton_append, Nat.add_zero]
          congr 2
          apply List.map_congr_left
          intro k _
          simp only [Function.comp, Nat.succ_eq_add_one]
          congr 1
          omega
        · intro id
          rw [hc']
          simp only [hnext2, hnext1, hc2, hc1, hid]
          by_cases h1 : id = m.dynamicArena.nextId
          · subst h1
            simp
          · by_cases h2 : m.dynamicArena.nextId ≤ id ∧ id < m.dynamicArena.nextId + (remaining + 1)
            · have h3 : m.dynamicArena.nextId + 1 ≤ id ∧
                  id < m.dynamicArena.nextId + 1 + remaining := by omega
              have h4 : i + 1 + (id - (m.dynamicArena.nextId + 1)) =
                  i + (id - m.dynamicArena.nextId) := by omega
              simp [h2, h3, h4]
            · have h3 : ¬ (m.dynamicArena.nextId + 1 ≤ id ∧
                  id < m.dynamicArena.nextId + 1 + remaining) := by omega
              simp [h1, h2, h3]

/-- A run of deletions that succeeds on a manager with a well-formed arena: the deleted
identifiers have no content any more and every other identifier keeps its content. -/
theorem MemoryManager.deleteObjects_spec (deleted : List ObjectHandle) (m : MemoryManager)
    (inst' : Option MemoryManager) (hwf : m.dynamicArena.WellFormed)
    (h : deleteObjects deleted (some m) = .ok inst') :
    ∃ m', inst' = some m' ∧ m'.dynamicArena.WellFormed ∧
      ∀ id, m'.dynamicArena.content id =
        if (⟨id⟩ : ObjectHandle) ∈ deleted then none else m.dynamicArena.content id := by
  induction deleted generalizing m with
  | nil =>
    simp only [deleteObjects, Except.ok.injEq] at h
    exact ⟨m, h.symm, hwf, fun id => by simp⟩
  | cons d rest ih =>
    cases hdel : m.dynamicArena.DeleteDynamic d with
    | mk r1 a1 =>
      cases r1 with
      | error e => simp [deleteObjects, MemoryManager.DeleteDynamic, GetInstance, hdel] at h
      | ok u =>
        obtain ⟨hwf1, -, hc1⟩ := MemoryArena.DeleteDynamic_spec _ _ _ hwf hdel
        simp only [deleteObjects, MemoryManager.DeleteDynamic, GetInstance, hdel] at h
        obtain ⟨m', hm', hwf', hc'⟩ := ih { m with dynamicArena := a1 } hwf1 h
        refine ⟨m', hm', hwf', ?_⟩
        intro id
        rw [hc']
        simp only [hc1, List.mem_cons]
        by_cases h1 : (⟨id⟩ : ObjectHandle) ∈ rest
        · simp [h1]
        · by_cases h2 : id = d.id
          · have h3 : (⟨id⟩ : ObjectHandle) = d := by cases d; simp only at h2; rw [h2]
            simp [h1, h2, h3]
          · have h3 : ¬ (⟨id⟩ : ObjectHandle) = d := by
              intro heq
              exact h2 (by rw [← heq])
            simp [h1, h2, h3]

/-- C8: on a manager whose arena is well formed, after the creation loop made `n` objects
and stored `i` through the `i`-th handle, after any run of `DeleteDynamic` calls that
succeeded, and after `Update` ran `Defragment`, every created handle that was not deleted
reads the value stored through it (as a `U64`, its low 64 bits). -/
theorem surviving_handles_keep_values (m : MemoryManager) (n : Nat)
    (deleted arr : List ObjectHandle) (inst1 inst2 : Option MemoryManager)
    (hwf : m.dynamicArena.WellFormed)
    (hcreate : createObjects n 0 [] (some m) = .ok (arr, inst1))
    (hdelete : deleteObjects deleted inst1 = .ok inst2)
    (i : Nat) (h : ObjectHandle) (hi : arr[i]? = some h) (hkeep : h ∉ deleted) :
    readU64 (inst2.map Update) h = .ok (i % 2 ^ 64) := by
  obtain ⟨m1, rfl, hwf1, harr, hc1⟩ := createObjects_spec n 0 [] m arr inst1 hwf hcreate
  obtain ⟨m2, rfl, hwf2, hc2⟩ := deleteObjects_spec deleted m1 inst2 hwf1 hdelete
  obtain ⟨-, -, hc3⟩ := MemoryArena.Defragment_spec m2.dynamicArena hwf2
  have hlen : i < n := by
    have := (List.getElem?_eq_some_iff.mp hi).1
    rw [harr] at this
    simpa using this
  have hh : h = ⟨m.dynamicArena.nextId + i⟩ := by
    rw [harr] at hi
    simp only [List.nil_append, List.getElem?_map, List.getElem?_range hlen,
      Option.map_some', Option.some.injEq] at hi
    exact hi.symm
  have hnot : ¬ (⟨h.id⟩ : ObjectHandle) ∈ deleted := hkeep
  have hcontent : m2.Update.dynamicArena.content h.id = some (encodeLE 8 i) := by
    show m2.dynamicArena.Defragment.content h.id = some (encodeLE 8 i)
    rw [hc3, hc2, if_neg hnot, hc1, hh]
    have hin : m.dynamicArena.nextId ≤ m.dynamicArena.nextId + i ∧
        m.dynamicArena.nextId + i < m.dynamicArena.nextId + n := by omega
    simp [hin]
  exact MemoryArena.read_of_content _ h i hcontent

/-- Witness for C8: three objects created in an empty arena of 64 bytes, the second one
deleted; the third handle still reads 2 after `Update`. -/
theorem surviving_handles_keep_values_witness :
    (MemoryArena.create 64).WellFormed ∧
    readU64
      ((match deleteObjects [⟨1⟩]
          (match createObjects 3 0 []
              (some { defaultConstructed with dynamicArena := MemoryArena.create 64 }) with
            | .ok r => r.2
            | .error _ => none) with
        | .ok w => w
        | .error _ => none).map Update) ⟨2⟩ = .ok (2 % 2 ^ 64) :=
  have hwf : (MemoryArena.create 64).WellFormed :=
    ⟨Nat.zero_le _, fun _ hs => (by cases hs), List.nodup_nil⟩
  ⟨hwf,
    surviving_handles_keep_values
      { defaultConstructed with dynamicArena := MemoryArena.create 64 } 3 [⟨1⟩]
      [⟨0⟩, ⟨1⟩, ⟨2⟩] _ _ hwf rfl rfl 2 ⟨2⟩ rfl (by decide)⟩

/-! ## Properties of `DefragmentTest` -/

/-- In a list without duplicates, the element at a position is gone once the position is
erased. -/
theorem not_mem_eraseIdx_of_nodup {α : Type} (l : List α) (hnd : l.Nodup) (i : Nat) (x : α)
    (h : l[i]? = some x) : x ∉ l.eraseIdx i := by
  induction l generalizing i with
  | nil => simp
  | cons a rest ih =>
    rw [List.nodup_cons] at hnd
    cases i with
    | zero =>
      simp only [List.getElem?_cons_zero, Option.some.injEq] at h
      subst h
      simpa using hnd.1
    | succ j =>
      simp only [List.getElem?_cons_succ] at h
      have hmem : x ∈ rest := List.getElem?_mem h
      have hne : x ≠ a := fun heq => hnd.1 (heq ▸ hmem)
      simp only [List.eraseIdx_cons_succ, List.mem_cons, not_or]
      exact ⟨hne, ih hnd.2 j h⟩

/-- The deletion loop on a manager with a well-formed arena, started on an array of
distinct live handles that is at least as long as the number of iterations, with every
drawn value inside its requested range: the loop runs to its end, every index is inside
the array, the sizes of the array go down by one per iteration, the handles passed to
`DeleteDynamic` are distinct elements of the array that are no longer in it at the end,
and the content of the arena changes only in that these handles have none. -/
theorem MemoryManager.deleteRandom_spec (random : Nat → Nat → Nat → Nat)
    (remaining i : Nat) (arr : List ObjectHandle) (steps : List DeleteStep)
    (m : MemoryManager) (hwf : m.dynamicArena.WellFormed) (hnd : arr.Nodup)
    (hlive : ∀ h ∈ arr, (m.dynamicArena.content h.id).isSome = true)
    (hlen : remaining ≤ arr.length)
    (hrand : ∀ k, k < remaining →
      random (i + k) 0 (arr.length - 1 - k) ≤ arr.length - 1 - k) :
    ∃ arr' steps' m',
      deleteRandom random remaining i arr steps (some m) =
        .ok (arr', steps ++ steps', some m') ∧
      m'.dynamicArena.WellFormed ∧
      arr'.length + remaining = arr.length ∧
      arr'.Sublist arr ∧
      steps'.map (fun s => s.size) = (List.range remaining).map (fun k => arr.length - k) ∧
      (∀ s ∈ steps', s.index < s.size) ∧
      (steps'.map (fun s => s.handle)).Nodup ∧
      (∀ s ∈ steps', s.handle ∈ arr ∧ s.handle ∉ arr') ∧
      ∀ id, m'.dynamicArena.content id =
        if (⟨id⟩ : ObjectHandle) ∈ steps'.map (fun s => s.handle) then none
        else m.dynamicArena.content id := by
  induction remaining generalizing i arr steps m with
  | zero =>
    refine ⟨arr, [], m, by simp [deleteRandom], hwf, rfl, List.Sublist.refl _, rfl,
      fun s hs => (by cases hs), List.nodup_nil, fun s hs => (by cases hs), fun id => by simp⟩
  | succ r ih =>
    have h0 := hrand 0 (Nat.succ_pos r)
    simp only [Nat.add_zero, Nat.sub_zero] at h0
    have hidx : random i 0 (arr.length - 1) < arr.length := by omega
    have hget : arr[random i 0 (arr.length - 1)]? =
        some (arr[random i 0 (arr.length - 1)]) := List.getElem?_eq_getElem hidx
    have hmem : arr[random i 0 (arr.length - 1)] ∈ arr := List.getElem_mem hidx
    -- the handle is live, so `DeleteDynamic` succeeds
    have hsome := hlive _ hmem
    obtain ⟨bytes, hbytes⟩ := Option.isSome_iff_exists.mp hsome
    obtain ⟨slot, hfind, -, -, -, -⟩ := MemoryArena.slot_of_content _ _ _ hbytes
    have hdel : m.dynamicArena.DeleteDynamic (arr[random i 0 (arr.length - 1)]) =
        (.ok (), { m.dynamicArena with
          slots := m.dynamicArena.slots.filter
            (fun s => s.id != (arr[random i 0 (arr.length - 1)]).id) }) := by
      simp [MemoryArena.DeleteDynamic, MemoryArena.slotOf, hfind]
    obtain ⟨hwf1, -, hc1⟩ := MemoryArena.DeleteDynamic_spec _ _ _ hwf hdel
    -- the array after `Erase`
    have hnot := not_mem_eraseIdx_of_nodup arr hnd _ _ hget
    have hlen1 : (arr.eraseIdx (random i 0 (arr.length - 1))).length = arr.length - 1 :=
      List.length_eraseIdx_of_lt hidx
    have hlive1 : ∀ h ∈ arr.eraseIdx (random i 0 (arr.length - 1)),
        (({ m with dynamicArena := { m.dynamicArena with
          slots := m.dynamicArena.slots.filter
            (fun s => s.id != (arr[random i 0 (arr.length - 1)]).id) } } :
            MemoryManager).dynamicArena.content h.id).isSome = true := by
      intro h hh
      have hne : h.id ≠ (arr[random i 0 (arr.length - 1)]).id := by
        intro heq
        apply hnot
        have : h = arr[random i 0 (arr.length - 1)] := by
          cases h
          cases hx : arr[random i 0 (arr.length - 1)]
          rw [hx] at heq
          simp only at heq
          rw [heq]
        rw [← this]
        exact hh
      show (MemoryArena.content _ h.id).isSome = true
      rw [hc1, if_neg hne]
      exact hlive h (List.mem_of_mem_eraseIdx hh)
    have hrand1 : ∀ k, k < r →
        random (i + 1 + k) 0 ((arr.eraseIdx (random i 0 (arr.length - 1))).length - 1 - k) ≤
          (arr.eraseIdx (random i 0 (arr.length - 1))).length - 1 - k := by
      intro k hk
      have := hrand (k + 1) (Nat.succ_lt_succ hk)
      have e1 : i + 1 + k = i + (k + 1) := by omega
      have e2 : (arr.eraseIdx (random i 0 (arr.length - 1))).length - 1 - k =
          arr.length - 1 - (k + 1) := by omega
      rw [e1, e2]
      exact this
    obtain ⟨arr', steps1, m', hrun, hwf', hl', hsub', hsizes', hidx', hnd', hmem', hc'⟩ :=
      ih (i + 1) (arr.eraseIdx (random i 0 (arr.length - 1)))
        (steps ++ [⟨random i 0 (arr.length - 1), arr.length,
          arr[random i 0 (arr.length - 1)]⟩])
        { m with dynamicArena := { m.dynamicArena with
          slots := m.dynamicArena.slots.filter
            (fun s => s.id != (arr[random i 0 (arr.length - 1)]).id) } }
        hwf1 (hnd.eraseIdx _) hlive1 (by omega) hrand1
    refine ⟨arr', ⟨random i 0 (arr.length - 1), arr.length,
      arr[random i 0 (arr.length - 1)]⟩ :: steps1, m', ?_, hwf', by omega,
      hsub'.trans (List.eraseIdx_sublist _ _), ?_, ?_, ?_, ?_, ?_⟩
    · simp only [deleteRandom, hget, MemoryManager.DeleteDynamic, GetInstance, hdel]
      rw [hrun]
      simp
    · simp only [List.map_cons, List.range_succ_eq_map, List.map_map, Nat.sub_zero, hsizes',
        hlen1]
      congr 1
      apply List.map_congr_left
      intro k _
      simp only [Function.comp, Nat.succ_eq_add_one]
      omega
    · intro s hs
      rcases List.mem_cons.mp hs with rfl | hs'
      · exact hidx
      · exact hidx' s hs'
    · rw [List.map_cons, List.nodup_cons]
      refine ⟨?_, hnd'⟩
      intro hin
      obtain ⟨s, hs, heq⟩ := List.mem_map.mp hin
      have heq' : s.handle = arr[random i 0 (arr.length - 1)] := heq
      rw [← heq'] at hnot
      exact hnot (hmem' s hs).1
    · intro s hs
      rcases List.mem_cons.mp hs with rfl | hs'
      · exact ⟨hmem, fun hin => hnot (hsub'.subset hin)⟩
      · exact ⟨List.mem_of_mem_eraseIdx (hmem' s hs').1, (hmem' s hs').2⟩
    · intro id
      rw [hc']
      show (if (⟨id⟩ : ObjectHandle) ∈ steps1.map (fun s => s.handle) then none
        else MemoryArena.content _ id) = _
      rw [hc1]
      simp only [List.map_cons, List.mem_cons]
      by_cases h1 : (⟨id⟩ : ObjectHandle) ∈ steps1.map (fun s => s.handle)
      · simp [h1]
      · by_cases h2 : id = (arr[random i 0 (arr.length - 1)]).id
        · have h3 : (⟨id⟩ : ObjectHandle) = arr[random i 0 (arr.length - 1)] := by
            rw [h2]
          simp [h1, h2, h3]
        · have h3 : ¬ (⟨id⟩ : ObjectHandle) = arr[random i 0 (arr.length - 1)] := by
            intro heq
            exact h2 (by rw [← heq])
          simp [h1, h2, h3]

/-- In a region filled without a gap, a new object of positive size goes right behind the
last one when it fits. -/
theorem MemoryArena.place_packed (capacity id size stop : Nat) (hsize : 0 < size)
    (hfit : stop + size ≤ capacity) (l : List ArenaSlot) (cur : Nat)
    (hp : MemoryArena.packed cur l stop) :
    MemoryArena.place capacity id size cur l = some (stop, l ++ [⟨id, stop, size⟩]) ∧
      MemoryArena.packed cur (l ++ [⟨id, stop, size⟩]) (stop + size) := by
  induction l generalizing cur with
  | nil =>
    have hcur : cur = stop := hp
    subst hcur
    exact ⟨by simp [MemoryArena.place, hfit], rfl, rfl⟩
  | cons s rest ih =>
    obtain ⟨hoff, hrest⟩ := hp
    obtain ⟨h1, h2⟩ := ih _ hrest
    have hno : ¬ cur + size ≤ s.offset := by omega
    exact ⟨by simp [MemoryArena.place, hno, h1], hoff, h2⟩

/-- Storing through a handle leaves the slot map and the capacity as they were. -/
theorem MemoryArena.assign_layout (a : MemoryArena) (h : ObjectHandle) (value : Nat) :
    (ObjectHandle.assign a h value).2.slots = a.slots ∧
      (ObjectHandle.assign a h value).2.capacity = a.capacity := by
  unfold ObjectHandle.assign
  cases a.slotOf h <;> exact ⟨rfl, rfl⟩

/-- The creation loop runs to its end when the arena is well formed, is filled without a
gap up to `stop`, and has room for eight more bytes per object behind `stop`. -/
theorem MemoryManager.createObjects_succeeds (remaining i : Nat) (arr : List ObjectHandle)
    (m : MemoryManager) (stop : Nat) (hwf : m.dynamicArena.WellFormed)
    (hp : MemoryArena.packed 0 m.dynamicArena.slots stop)
    (hfit : stop + 8 * remaining ≤ m.dynamicArena.capacity) :
    ∃ arr' inst', createObjects remaining i arr (some m) = .ok (arr', inst') := by
  induction remaining generalizing i arr m stop with
  | zero => exact ⟨arr, some m, rfl⟩
  | succ r ih =>
    obtain ⟨hplace, hpacked⟩ := MemoryArena.place_packed m.dynamicArena.capacity
      m.dynamicArena.nextId 8 stop (by decide) (by omega) m.dynamicArena.slots 0 hp
    have hnew : m.dynamicArena.NewDynamic (encodeLE 8 0) =
        (.ok ⟨m.dynamicArena.nextId⟩,
          { m.dynamicArena with
            slots := m.dynamicArena.slots ++ [⟨m.dynamicArena.nextId, stop, 8⟩]
            nextId := m.dynamicArena.nextId + 1
            mem := writeBytes m.dynamicArena.mem stop (encodeLE 8 0) }) := by
      simp [MemoryArena.NewDynamic, encodeLE_length, hplace]
    obtain ⟨-, hwf1, -, hc1⟩ := MemoryArena.NewDynamic_spec _ _ _ _ hwf hnew
    have hold := hc1 m.dynamicArena.nextId
    rw [if_pos rfl] at hold
    obtain ⟨a2, hassign, hwf2, -, -⟩ :=
      MemoryArena.assign_spec _ ⟨m.dynamicArena.nextId⟩ i _ hwf1 hold (encodeLE_length 8 0)
    obtain ⟨hslots, hcap⟩ := MemoryArena.assign_layout
      { m.dynamicArena with
        slots := m.dynamicArena.slots ++ [⟨m.dynamicArena.nextId, stop, 8⟩]
        nextId := m.dynamicArena.nextId + 1
        mem := writeBytes m.dynamicArena.mem stop (encodeLE 8 0) }
      ⟨m.dynamicArena.nextId⟩ i
    rw [hassign] at hslots hcap
    obtain ⟨arr', inst', h'⟩ := ih (i + 1) (arr ++ [⟨m.dynamicArena.nextId⟩])
      { m with dynamicArena := a2 } (stop + 8) hwf2
      (by show MemoryArena.packed 0 a2.slots (stop + 8); rw [hslots]; exact hpacked)
      (by show stop + 8 + 8 * r ≤ a2.capacity; rw [hcap]; show _ ≤ m.dynamicArena.capacity; omega)
    refine ⟨arr', inst', ?_⟩
    simp only [createObjects, NewDynamicU64, GetInstance, hnew, assignU64, hassign]
    exact h'

/-- C11: in `DefragmentTest`, once the 1024 objects have been created on a manager with a
well-formed arena, and when every value the generator returns lies in the range requested
at its iteration (`[0, arr.Size() - 1]`, which is `[0, 1023 - i]` at iteration `i`), the
second loop runs its 512 iterations to the end; at iteration `i` the array holds
`1024 - i` handles and the index is inside it; no handle is passed to `DeleteDynamic`
twice; exactly 512 of the 1024 created handles remain in `arr`, none of them deleted:
each is absent from the handles passed to `DeleteDynamic` and still reads the value
stored through it. -/
theorem defragmentTest_deletes_half_in_bounds (random : Nat → Nat → Nat → Nat)
    (m : MemoryManager) (arr : List ObjectHandle) (inst1 : Option MemoryManager)
    (hwf : m.dynamicArena.WellFormed)
    (hrand : ∀ i, i < 512 → random i 0 (1023 - i) ≤ 1023 - i)
    (hcreate : createObjects 1024 0 [] (some m) = .ok (arr, inst1)) :
    ∃ remaining steps inst2,
      DefragmentTest random (some m) = .ok (remaining, steps, inst2) ∧
      arr.length = 1024 ∧ steps.length = 512 ∧
      steps.map (fun s => s.size) = (List.range 512).map (fun i => 1024 - i) ∧
      (∀ s ∈ steps, s.index < s.size) ∧
      (steps.map (fun s => s.handle)).Nodup ∧
      remaining.length = 512 ∧ remaining.Sublist arr ∧
      ∀ h ∈ remaining, h ∉ steps.map (fun s => s.handle) ∧
        ∃ j, arr[j]? = some h ∧ readU64 inst2 h = .ok j := by
  obtain ⟨m1, rfl, hwf1, harr, hc1⟩ := createObjects_spec 1024 0 [] m arr _ hwf hcreate
  rw [List.nil_append] at harr
  have hlen : arr.length = 1024 := by rw [harr]; simp
  have hnd : arr.Nodup := by
    rw [harr]
    apply List.Nodup.map _ (List.nodup_range 1024)
    intro a b hab
    simp only [ObjectHandle.mk.injEq] at hab
    omega
  have hat : ∀ j h, arr[j]? = some h →
      j < 1024 ∧ m1.dynamicArena.content h.id = some (encodeLE 8 j) := by
    intro j h hj
    have hj1 : j < 1024 := by
      have := (List.getElem?_eq_some_iff.mp hj).1
      omega
    rw [harr] at hj
    simp only [List.getElem?_map, List.getElem?_range hj1, Option.map_some',
      Option.some.injEq] at hj
    subst hj
    refine ⟨hj1, ?_⟩
    rw [hc1]
    have hin : m.dynamicArena.nextId ≤ m.dynamicArena.nextId + j ∧
        m.dynamicArena.nextId + j < m.dynamicArena.nextId + 1024 := by omega
    simp [hin]
  have hlive : ∀ h ∈ arr, (m1.dynamicArena.content h.id).isSome = true := by
    intro h hh
    obtain ⟨j, hj⟩ := List.mem_iff_getElem?.mp hh
    rw [(hat j h hj).2]
    rfl
  have hrand' : ∀ k, k < 512 →
      random (0 + k) 0 (arr.length - 1 - k) ≤ arr.length - 1 - k := by
    intro k hk
    have e1 : arr.length - 1 - k = 1023 - k := by omega
    rw [Nat.zero_add, e1]
    exact hrand k hk
  obtain ⟨remaining, steps, m2, hrun, -, hl, hsub, hsizes, hidx, hnd2, hmem, hc2⟩ :=
    deleteRandom_spec random 512 0 arr [] m1 hwf1 hnd hlive (by omega) hrand'
  rw [List.nil_append] at hrun
  rw [hlen] at hsizes
  refine ⟨remaining, steps, some m2, ?_, hlen, ?_, hsizes, hidx, hnd2, by omega, hsub, ?_⟩
  · unfold DefragmentTest
    simp only [hcreate]
    exact hrun
  · have := congrArg List.length hsizes
    simpa using this
  · intro h hh
    have hnot : h ∉ steps.map (fun s => s.handle) := by
      intro hin
      obtain ⟨s, hs, heq⟩ := List.mem_map.mp hin
      have heq' : s.handle = h := heq
      exact (hmem s hs).2 (heq' ▸ hh)
    refine ⟨hnot, ?_⟩
    obtain ⟨j, hj⟩ := List.mem_iff_getElem?.mp (hsub.subset hh)
    obtain ⟨hj1, hcj⟩ := hat j h hj
    refine ⟨j, hj, ?_⟩
    have hnot' : ¬ (⟨h.id⟩ : ObjectHandle) ∈ steps.map (fun s => s.handle) := hnot
    have hcontent : m2.dynamicArena.content h.id = some (encodeLE 8 j) := by
      rw [hc2, if_neg hnot', hcj]
    have hread := MemoryArena.read_of_content _ h j hcontent
    have hmod : j % 2 ^ 64 = j := Nat.mod_eq_of_lt (by omega)
    rw [hmod] at hread
    exact hread

/-- Witness for C11: `DefragmentTest` on an empty arena of 8192 bytes, with a generator
that returns `(7919 * i) mod (hi + 1)` at iteration `i`; the loop ends with 512 handles
in `arr` after 512 iterations. -/
theorem defragmentTest_deletes_half_in_bounds_witness :
    (MemoryArena.create 8192).WellFormed ∧
    (DefragmentTest (fun i _ hi => (7919 * i) % (hi + 1))
        (some { defaultConstructed with dynamicArena := MemoryArena.create 8192 })).toOption.map
      (fun r => (r.1.length, r.2.1.length)) = some (512, 512) := by
  have hwf : (MemoryArena.create 8192).WellFormed :=
    ⟨Nat.zero_le _, fun _ hs => (by cases hs), List.nodup_nil⟩
  obtain ⟨arr, inst1, hcreate⟩ := createObjects_succeeds 1024 0 []
    { defaultConstructed with dynamicArena := MemoryArena.create 8192 } 0 hwf rfl
    (Nat.le_refl 8192)
  obtain ⟨remaining, steps, inst2, hrun, -, hsteps, -, -, -, hrem, -, -⟩ :=
    defragmentTest_deletes_half_in_bounds (fun i _ hi => (7919 * i) % (hi + 1))
      { defaultConstructed with dynamicArena := MemoryArena.create 8192 } arr inst1 hwf
      (fun i _ => Nat.lt_succ_iff.mp (Nat.mod_lt _ (Nat.succ_pos _))) hcreate
  refine ⟨hwf, ?_⟩
  rw [hrun]
  simp [Except.toOption, hrem, hsteps]

end Isetta
